import Mathlib

/-!
Verification of the Community Notes scoring-rule engine
(`sourcecode/scoring/scoring_rules.py`).

The development shallowly embeds the data model and the scoring rules needed
by the verified properties.  DataFrames become lists of typed rows; pandas
missing values (`NaN`) become `Option`; `assert` statements become `Except`
errors.  Numeric score columns are embedded as `Rat`, millisecond timestamps
as `Int`.  The embedding keeps the source's names where Lean allows it.

Only the columns consumed by the embedded rules are carried in `NoteRow`;
all other columns of the production table are payload that no embedded rule
reads or writes, so omitting them does not change any verified behaviour.
-/

namespace CommunityNotes

/-- Rating statuses.  The production code uses the string constants
`CURRENTLY_RATED_HELPFUL`, `CURRENTLY_RATED_NOT_HELPFUL`,
`NEEDS_MORE_RATINGS` and `FIRM_REJECT` from `constants.py`. -/
inductive Status where
  | crh
  | crnh
  | nmr
  | firmReject
deriving DecidableEq

/-- Typed view of one row of the `noteStats` DataFrame, restricted to the
columns read or written by the embedded rules.  Every semantically nullable
column is an `Option`; `none` plays the role of `NaN`. -/
structure NoteRow where
  noteId : Int
  internalNoteIntercept : Option Rat := none
  coreNoteIntercept : Option Rat := none
  coreRatingStatus : Option Status := none
  expansionNoteIntercept : Option Rat := none
  expansionRatingStatus : Option Status := none
  groupRatingStatus : Option Status := none
  modelingGroup : Option Int := none
  currentLabel : Option Status := none
  timestampMillisOfNmrDueToMinStableCrhTime : Option Int := none
  firstTag : Option String := none
  secondTag : Option String := none
  tagCounts : List (String × Nat) := []
deriving DecidableEq

/-- Labels table: one `(noteId, status)` pair per row, mirroring the
`noteLabels` / `currentLabels` DataFrames. -/
abbrev Labels := List (Int × Status)

/-- Returns the status paired with `n` in the row that pandas
`groupby(noteId).tail(1)` would keep: the last row carrying key `n`. -/
def labelOf (labels : Labels) (n : Int) : Option Status :=
  ((labels.filter (fun p => p.1 = n)).getLast?).map (fun p => p.2)

/-- Embeds `pd.concat(...).groupby(noteIdKey).tail(1)`: keep, in order, each
row that is the final occurrence of its key. -/
def lastPerKey : Labels → Labels
  | [] => []
  | p :: rest =>
      if rest.any (fun q => q.1 = p.1) then lastPerKey rest
      else p :: lastPerKey rest

/-- Mirrors the namedtuple `RuleAndVersion(ruleName, ruleVersion, lockingEnabled)`. -/
structure RuleAndVersion where
  ruleName : String
  ruleVersion : String
  lockingEnabled : Bool
deriving DecidableEq

/-- Mirrors the `RuleID` enum: each member has a unique `ruleName` and can be
assigned to at most one `ScoringRule`. -/
inductive RuleID where
  | INITIAL_NMR
  | GENERAL_CRH
  | GENERAL_CRNH
  | UCB_CRNH
  | TAG_OUTLIER
  | ELEVATED_CRH
  | NM_CRNH
  | GENERAL_CRH_INERTIA
  | ELEVATED_CRH_INERTIA
  | INCORRECT_OUTLIER
  | LOW_DILIGENCE
  | LARGE_FACTOR
  | LOW_INTERCEPT
  | META_INITIAL_NMR
  | EXPANSION_MODEL
  | EXPANSION_PLUS_MODEL
  | CORE_MODEL
  | COVERAGE_MODEL
  | GROUP_MODEL_1
  | GROUP_MODEL_2
  | GROUP_MODEL_3
  | GROUP_MODEL_4
  | GROUP_MODEL_5
  | GROUP_MODEL_6
  | GROUP_MODEL_7
  | GROUP_MODEL_8
  | GROUP_MODEL_9
  | GROUP_MODEL_10
  | GROUP_MODEL_11
  | GROUP_MODEL_12
  | GROUP_MODEL_13
  | GROUP_MODEL_14
  | TOPIC_MODEL_1
  | TOPIC_MODEL_2
  | TOPIC_MODEL_3
  | MULTI_GROUP_MODEL_1
  | INSUFFICIENT_EXPLANATION
  | SCORING_DRIFT_GUARD
  | NMR_DUE_TO_MIN_STABLE_CRH_TIME
deriving DecidableEq

/-- The `RuleAndVersion` value of each `RuleID` enum member. -/
def RuleID.value : RuleID → RuleAndVersion
  | .INITIAL_NMR => ⟨"InitialNMR", "1.0", false⟩
  | .GENERAL_CRH => ⟨"GeneralCRH", "1.0", false⟩
  | .GENERAL_CRNH => ⟨"GeneralCRNH", "1.0", false⟩
  | .UCB_CRNH => ⟨"UcbCRNH", "1.0", false⟩
  | .TAG_OUTLIER => ⟨"TagFilter", "1.0", false⟩
  | .ELEVATED_CRH => ⟨"CRHSuperThreshold", "1.0", false⟩
  | .NM_CRNH => ⟨"NmCRNH", "1.0", false⟩
  | .GENERAL_CRH_INERTIA => ⟨"GeneralCRHInertia", "1.0", false⟩
  | .ELEVATED_CRH_INERTIA => ⟨"ElevatedCRHInertia", "1.0", false⟩
  | .INCORRECT_OUTLIER => ⟨"FilterIncorrect", "1.0", false⟩
  | .LOW_DILIGENCE => ⟨"FilterLowDiligence", "1.0", false⟩
  | .LARGE_FACTOR => ⟨"FilterLargeFactor", "1.0", false⟩
  | .LOW_INTERCEPT => ⟨"RejectLowIntercept", "1.0", false⟩
  | .META_INITIAL_NMR => ⟨"MetaInitialNMR", "1.0", false⟩
  | .EXPANSION_MODEL => ⟨"ExpansionModel", "1.1", false⟩
  | .EXPANSION_PLUS_MODEL => ⟨"ExpansionPlusModel", "1.1", false⟩
  | .CORE_MODEL => ⟨"CoreModel", "1.1", true⟩
  | .COVERAGE_MODEL => ⟨"CoverageModel", "1.1", false⟩
  | .GROUP_MODEL_1 => ⟨"GroupModel01", "1.1", true⟩
  | .GROUP_MODEL_2 => ⟨"GroupModel02", "1.1", true⟩
  | .GROUP_MODEL_3 => ⟨"GroupModel03", "1.1", true⟩
  | .GROUP_MODEL_4 => ⟨"GroupModel04", "1.1", false⟩
  | .GROUP_MODEL_5 => ⟨"GroupModel05", "1.1", false⟩
  | .GROUP_MODEL_6 => ⟨"GroupModel06", "1.1", true⟩
  | .GROUP_MODEL_7 => ⟨"GroupModel07", "1.1", false⟩
  | .GROUP_MODEL_8 => ⟨"GroupModel08", "1.1", true⟩
  | .GROUP_MODEL_9 => ⟨"GroupModel09", "1.1", true⟩
  | .GROUP_MODEL_10 => ⟨"GroupModel10", "1.1", true⟩
  | .GROUP_MODEL_11 => ⟨"GroupModel11", "1.1", true⟩
  | .GROUP_MODEL_12 => ⟨"GroupModel12", "1.1", false⟩
  | .GROUP_MODEL_13 => ⟨"GroupModel13", "1.1", true⟩
  | .GROUP_MODEL_14 => ⟨"GroupModel14", "1.1", true⟩
  | .TOPIC_MODEL_1 => ⟨"TopicModel01", "1.0", false⟩
  | .TOPIC_MODEL_2 => ⟨"TopicModel02", "1.0", false⟩
  | .TOPIC_MODEL_3 => ⟨"TopicModel03", "1.0", false⟩
  | .MULTI_GROUP_MODEL_1 => ⟨"MultiGroupModel01", "1.0", false⟩
  | .INSUFFICIENT_EXPLANATION => ⟨"InsufficientExplanation", "1.0", true⟩
  | .SCORING_DRIFT_GUARD => ⟨"ScoringDriftGuard", "1.0", false⟩
  | .NMR_DUE_TO_MIN_STABLE_CRH_TIME => ⟨"NmrDueToMinStableCrhTime", "1.0", false⟩

/-- Mirrors `RuleID.get_name`: the display identifier combining name and
version, format `"<name> (v<version>)"`. -/
def RuleID.get_name (r : RuleID) : String :=
  r.value.ruleName ++ " (v" ++ r.value.ruleVersion ++ ")"

/-- Mirrors `ScoringRule.check_dependencies`: the Python body is
`assert not (self._dependencies - priorRules)`.  Returns `true` exactly when
the assertion passes, i.e. when every declared dependency is in `priorRules`. -/
def check_dependencies (dependencies priorRules : List RuleID) : Bool :=
  dependencies.all (fun d => d ∈ priorRules)

/-- Mirrors the blocked-note predicate duplicated in
`ApplyModelResult.score_notes` and `ApplyGroupModelResult.score_notes`:
`coreRejects | (coreRatingStatus.isna() & expansionRejects)` where a model
rejects when its rating status is in `{FIRM_REJECT, CRNH}`.  A pandas `isin`
on a `NaN` cell is `False`, matching the `Option` cases here. -/
def blockedByCoreOrExpansion (r : NoteRow) : Bool :=
  let coreRejects :=
    decide (r.coreRatingStatus = some Status.firmReject) ||
      decide (r.coreRatingStatus = some Status.crnh)
  let expansionRejects :=
    decide (r.expansionRatingStatus = some Status.firmReject) ||
      decide (r.expansionRatingStatus = some Status.crnh)
  coreRejects || (decide (r.coreRatingStatus = none) && expansionRejects)

/-- Mirrors `DefaultRule.score_notes`: returns all noteIDs with the
configured default status. -/
def DefaultRule.score_notes (status : Status) (noteStats : List NoteRow)
    (_currentLabels : Labels) : List (Int × Status) :=
  noteStats.map (fun r => (r.noteId, status))

/-- Mirrors `ApplyModelResult.score_notes`: propagates any status set in
`sourceColumn` when it is non-NaN, pruning CRH-bound notes blocked by prior
firm rejects when `checkFirmReject` holds, applying the equality filters of
`filterColumnPairs` (each embedded as the predicate of one
`noteStats[col] == value` comparison), rewriting `FIRM_REJECT` to
`NEEDS_MORE_RATINGS`, and asserting the emitted statuses are CRH, CRNH or
NMR. -/
def ApplyModelResult.score_notes (sourceColumn : NoteRow → Option Status)
    (checkFirmReject : Bool) (filterColumnPairs : List (NoteRow → Bool))
    (noteStats : List NoteRow) : Except String (List (Int × Status)) :=
  let noteStats :=
    if checkFirmReject then
      noteStats.filter (fun r =>
        !(blockedByCoreOrExpansion r && decide (sourceColumn r = some Status.crh)))
    else noteStats
  let noteStats := filterColumnPairs.foldl (fun ns f => ns.filter f) noteStats
  let noteStatusUpdates := noteStats.filterMap (fun r =>
    (sourceColumn r).map (fun s =>
      (r.noteId, if s = Status.firmReject then Status.nmr else s)))
  if noteStatusUpdates.all (fun u =>
      decide (u.2 = Status.crh) || decide (u.2 = Status.crnh) ||
        decide (u.2 = Status.nmr)) then
    .ok noteStatusUpdates
  else .error "status must be set to CRH, CRNH or NMR"

/-- Mirrors `RejectLowIntercept.score_notes`: restrict to notes whose current
label is not CRNH (a pandas inner merge with the one-row-per-note
`currentLabels` table is a membership filter) and emit the configured status
for notes whose internal intercept is below `firmRejectThreshold` (a pandas
`<` on a `NaN` cell is `False`). -/
def RejectLowIntercept.score_notes (status : Status) (firmRejectThreshold : Rat)
    (noteStats : List NoteRow) (currentLabels : Labels) : List (Int × Status) :=
  let candidateNotes :=
    (currentLabels.filter (fun l => decide (l.2 ≠ Status.crnh))).map (fun l => l.1)
  let noteStats := noteStats.filter (fun r => decide (r.noteId ∈ candidateNotes))
  (noteStats.filter (fun r =>
      match r.internalNoteIntercept with
      | some x => decide (x < firmRejectThreshold)
      | none => false)).map (fun r => (r.noteId, status))

/-- Returns whether `timestampMillisOfNmrDueToMinStableCrhTime` is non-NaN
and positive, the guard `~T.isna() & (T > 0)` of
`NmrDueToMinStableCrhTime.score_notes`. -/
def timestampPositive (r : NoteRow) : Bool :=
  match r.timestampMillisOfNmrDueToMinStableCrhTime with
  | some t => decide (0 < t)
  | none => false

/-- Per-row outcome of the four vectorized `.loc` assignments in
`NmrDueToMinStableCrhTime.score_notes` (their conditions are mutually
exclusive, so the sequential column writes are a per-row case split).
Returns the new status written into `statusColumn + "_new"` (`none` when no
branch fires, the `np.nan` initialization) and the updated value of
`updatedTimestampMillisOfNmrDueToMinStableCrhTime`, initialized to the
current timestamp. -/
def NmrDueToMinStableCrhTime.rowOutcome (requiredStableCrhMinutesThreshold epochMillis : Int)
    (status : Status) (timestamp : Option Int) : Option Status × Option Int :=
  if status = Status.crh then
    match timestamp with
    | none => (some Status.nmr, some epochMillis)
    | some t =>
      if t ≤ 0 then (some Status.nmr, some epochMillis)
      else if requiredStableCrhMinutesThreshold * 60 * 1000 ≤ epochMillis - t then
        (some Status.crh, some (-1))
      else (some Status.nmr, some t)
  else
    match timestamp with
    | some t => if 0 < t then (none, some (-1)) else (none, some t)
    | none => (none, none)

/-- Mirrors `NmrDueToMinStableCrhTime.score_notes`.  The module constant
`c.epochMillis` (current wall-clock time captured in `constants.py`, which is
not part of the sources) is passed explicitly.  The rule drops notes whose
previous-run `currentLabel` is CRH, inner-joins with `currentLabels`,
restricts to rows that are CRH now or carry a positive timestamp, and
returns the CRH-to-NMR flips as status updates together with a bookkeeping
extras row for every considered note.  The selection of considered rows
(drop notes whose previous-run `currentLabel` is CRH, inner-join with
`currentLabels`, keep rows that are CRH now or carry a positive timestamp)
is split out as `considered`. -/
def NmrDueToMinStableCrhTime.considered (noteStats : List NoteRow)
    (currentLabels : Labels) : List (NoteRow × Status) :=
  let noteStats := noteStats.filter (fun r => decide (r.currentLabel ≠ some Status.crh))
  let merged := noteStats.flatMap (fun r =>
    (currentLabels.filter (fun l => decide (l.1 = r.noteId))).map (fun l => (r, l.2)))
  merged.filter (fun p => decide (p.2 = Status.crh) || timestampPositive p.1)

/-- The updates and bookkeeping extras of `NmrDueToMinStableCrhTime.score_notes`,
computed per considered row via `rowOutcome`. -/
def NmrDueToMinStableCrhTime.score_notes (requiredStableCrhMinutesThreshold epochMillis : Int)
    (noteStats : List NoteRow) (currentLabels : Labels) :
    List (Int × Status) × List (Int × Option Int) :=
  let considered := NmrDueToMinStableCrhTime.considered noteStats currentLabels
  let noteStatusUpdatesWithStatusChange :=
    (considered.filter (fun p =>
        decide (p.2 = Status.crh) &&
          decide ((rowOutcome requiredStableCrhMinutesThreshold epochMillis p.2
            p.1.timestampMillisOfNmrDueToMinStableCrhTime).1 = some Status.nmr))).map
      (fun p => (p.1.noteId, Status.nmr))
  let bookkeeping := considered.map (fun p =>
    (p.1.noteId,
      (rowOutcome requiredStableCrhMinutesThreshold epochMillis p.2
        p.1.timestampMillisOfNmrDueToMinStableCrhTime).2))
  (noteStatusUpdatesWithStatusChange, bookkeeping)

/-- Mirrors the per-model bound computation of
`ApplyGroupModelResult.score_notes`: the intercept must exceed
`minSafeguardThreshold`, must fall below the CRH threshold when one is
configured, and the result is `NaN` (`none`) when the intercept is missing. -/
def ApplyGroupModelResult.boundsCheck (minSafeguardThreshold : Rat)
    (crhThreshold : Option Rat) (intercept : Option Rat) : Option Bool :=
  match intercept with
  | none => none
  | some x =>
    some (decide (minSafeguardThreshold < x) &&
      (match crhThreshold with
       | none => true
       | some m => decide (x < m)))

/-- Mirrors the `_get_value` helper of `ApplyGroupModelResult.score_notes`:
take the first non-missing of the `(core, expansion)` pair (preference to
core by column order); if both are missing, return `False`. -/
def ApplyGroupModelResult.get_value : Option Bool → Option Bool → Bool
  | some b, _ => b
  | none, some b => b
  | none, none => false

/-- Mirrors `ApplyGroupModelResult.score_notes`: drop notes blocked by core
or expansion rejects, take the notes rated CRH by this instance's modeling
group, intersect with the notes currently labeled NMR, and keep only the
actionable notes per the core/expansion intercept safeguards, setting CRH. -/
def ApplyGroupModelResult.score_notes (groupNumber : Int)
    (coreCrhThreshold expansionCrhThreshold : Option Rat)
    (minSafeguardThreshold : Rat) (noteStats : List NoteRow)
    (currentLabels : Labels) : List (Int × Status) :=
  let noteStats := noteStats.filter (fun r => !(blockedByCoreOrExpansion r))
  let probationaryCRHNotes :=
    (noteStats.filter (fun r =>
        decide (r.groupRatingStatus = some Status.crh) &&
          decide (r.modelingGroup = some groupNumber))).map (fun r => r.noteId)
  let currentNMRNotes :=
    (currentLabels.filter (fun l => decide (l.2 = Status.nmr))).map (fun l => l.1)
  let noteStatusUpdates :=
    probationaryCRHNotes.filter (fun n => currentNMRNotes.contains n)
  let actionableNotes :=
    (noteStats.filter (fun r =>
        get_value
          (boundsCheck minSafeguardThreshold coreCrhThreshold r.coreNoteIntercept)
          (boundsCheck minSafeguardThreshold expansionCrhThreshold
            r.expansionNoteIntercept))).map (fun r => r.noteId)
  (noteStatusUpdates.filter (fun n => actionableNotes.contains n)).map
    (fun n => (n, Status.crh))

/-- Looks up a per-note raw tag count, zero when the tag is absent. -/
def tagCount (r : NoteRow) (tag : String) : Nat :=
  match r.tagCounts.find? (fun p => p.1 == tag) with
  | some p => p.2
  | none => 0

/-- Modelled from the spec: `get_top_two_tags_for_note` lives in
`scoring/explanation_tags.py`, which is not among the sources.  Section 4.14
describes it as a top-two-tags selector: "given per-note tag counts, a
`minRatingsToGetTag`, and a tie-break order, produce up to two tag names for
each note."  A tag is assigned when its count reaches `minRatingsToGetTag`;
the first two assigned tags in tie-break order are returned.  The second
threshold argument is carried to mirror the call sites' four-argument
positional form but the spec assigns it no role in selection. -/
def get_top_two_tags_for_note (rows : List NoteRow) (minRatingsToGetTag : Nat)
    (_minTagsNeededForStatus : Nat) (tiebreakOrder : List String) :
    List (Int × Option String × Option String) :=
  rows.map (fun r =>
    let assigned := tiebreakOrder.filter (fun t => decide (minRatingsToGetTag ≤ tagCount r t))
    (r.noteId, assigned.head?, assigned[1]?))

/-- Overwrites the `firstTag` and `secondTag` cells of one row with the
selector output for it, the effect of one row of the
`noteStats.loc[...] = topTags[...]` assignments. -/
def setTopTags (r : NoteRow) (p : Int × Option String × Option String) : NoteRow :=
  { r with firstTag := p.2.1, secondTag := p.2.2 }

/-- Writes the top tags of every note present in the selector output `tt`
back into the table, the id-keyed `noteStats.loc[topTags[noteIdKey], ...]`
assignment. -/
def writeTopTags (tt : List (Int × Option String × Option String))
    (r : NoteRow) : NoteRow :=
  match tt.find? (fun p => p.1 == r.noteId) with
  | some p => setTopTags r p
  | none => r

/-- Counts the non-missing entries among `firstTag` and `secondTag`, the sum
`(~crStats[[firstTag, secondTag]].isna()).sum(axis=1)`. -/
def topTagCount (r : NoteRow) : Nat :=
  (if r.firstTag.isSome then 1 else 0) + (if r.secondTag.isSome then 1 else 0)

/-- Mirrors `InsufficientExplanation.score_notes`.  The source mutates the
`noteStats` DataFrame in place (its docstring: "Sets Top Tags inplace on
noteStats"), so the embedding additionally returns the post-call state of
`noteStats`.  With no custom tag set, top tags are written for currently-CRH
notes (helpful tie-break order, with the two threshold arguments passed in
swapped position exactly as at the source call site) and then for
currently-CRNH notes (not-helpful order); with a custom tag set, top tags
are written positionally for every note.  Updates flip to the configured
status every currently-CRH/CRNH note with fewer than
`minTagsNeededForStatus` assigned top tags.  The tie-break order module
constants of `constants.py` (not among the sources) are passed explicitly. -/
def InsufficientExplanation.score_notes (status : Status)
    (minRatingsToGetTag minTagsNeededForStatus : Nat)
    (tagsConsidered : Option (List String))
    (helpfulTagsTiebreakOrder notHelpfulTagsTiebreakOrder : List String)
    (noteStats : List NoteRow) (currentLabels : Labels) :
    List (Int × Status) × List NoteRow :=
  let noteStats1 :=
    match tagsConsidered with
    | none =>
      let crhIds :=
        (currentLabels.filter (fun l => decide (l.2 = Status.crh))).map (fun l => l.1)
      let topCrhTags := get_top_two_tags_for_note
        (noteStats.filter (fun r => decide (r.noteId ∈ crhIds)))
        minTagsNeededForStatus minRatingsToGetTag helpfulTagsTiebreakOrder
      let ns1 := noteStats.map (writeTopTags topCrhTags)
      let crnhIds :=
        (currentLabels.filter (fun l => decide (l.2 = Status.crnh))).map (fun l => l.1)
      let topCrnhTags := get_top_two_tags_for_note
        (ns1.filter (fun r => decide (r.noteId ∈ crnhIds)))
        minRatingsToGetTag minTagsNeededForStatus notHelpfulTagsTiebreakOrder
      ns1.map (writeTopTags topCrnhTags)
    | some tags =>
      let topTags := get_top_two_tags_for_note noteStats
        minRatingsToGetTag minTagsNeededForStatus tags
      noteStats.zipWith setTopTags topTags
  let crIds :=
    (currentLabels.filter (fun l =>
        decide (l.2 = Status.crh) || decide (l.2 = Status.crnh))).map (fun l => l.1)
  let crStats := noteStats1.filter (fun r => decide (r.noteId ∈ crIds))
  let noteStatusUpdates :=
    (crStats.filter (fun r => decide (topTagCount r < minTagsNeededForStatus))).map
      (fun r => (r.noteId, status))
  (noteStatusUpdates, noteStats1)

/-- Accumulated additional output columns (`noteColumns`): a table keyed by
`noteId`.  `cols` lists the non-`noteId` column names; each row pairs a
`noteId` with one value per column (values are kept opaque as optional
strings, `none` standing for `NaN`). -/
structure ExtrasTable where
  cols : List String
  rows : List (Int × List (Option String))
deriving DecidableEq

/-- The empty `noteColumns` table the driver starts from: only the `noteId`
key column. -/
def ExtrasTable.empty : ExtrasTable := ⟨[], []⟩

/-- Mirrors `noteColumns.merge(additionalColumns, on=noteIdKey, how="outer")`
after the driver has asserted the non-key columns are disjoint: matched rows
are extended, unmatched left rows are padded with `NaN` on the right,
unmatched right rows are appended padded with `NaN` on the left. -/
def ExtrasTable.outerMerge (a b : ExtrasTable) : ExtrasTable :=
  let leftRows := a.rows.map (fun p =>
    match b.rows.find? (fun q => q.1 == p.1) with
    | some q => (p.1, p.2 ++ q.2)
    | none => (p.1, p.2 ++ List.replicate b.cols.length none))
  let rightOnly := (b.rows.filter (fun q => !(a.rows.any (fun p => p.1 == q.1)))).map
    (fun q => (q.1, List.replicate a.cols.length none ++ q.2))
  ⟨a.cols ++ b.cols, leftRows ++ rightOnly⟩

/-- A scoring rule as consumed by the driver, the embedding of the
`ScoringRule` contract: an identity, declared dependencies, and a
`score_notes` function.  Because `InsufficientExplanation.score_notes`
mutates the `noteStats` DataFrame in place, `score_notes` here returns the
post-call state of `noteStats` alongside the updates and optional extras;
every non-mutating rule returns its input unchanged.  A rule whose body
raises (an `assert` in the source) returns an error. -/
structure Rule where
  ruleId : RuleID
  dependencies : List RuleID
  score_notes : List NoteRow → Labels →
    Except String (List (Int × Status) × Option ExtrasTable × List NoteRow)

/-- Record of what one rule emitted during a run: its identity, display
name, status updates, and the non-key column names of its extras if any. -/
structure RuleOutput where
  rid : RuleID
  ruleName : String
  updates : List (Int × Status)
  extrasCols : Option (List String)
deriving DecidableEq

/-- The three accumulators owned by the driver, together with the threaded
`noteStats` table and the set of rules already run. -/
structure EngineState where
  noteStats : List NoteRow
  noteLabels : Labels
  noteRules : List (Int × String)
  noteColumns : ExtrasTable
  ruleIDs : List RuleID

/-- Returns whether two id lists are equal as sets, mirroring
`set(a) == set(b)` on the `noteId` columns. -/
def sameIdSet (a b : List Int) : Bool :=
  a.all (fun n => b.contains n) && b.all (fun n => a.contains n)

/-- One iteration of the rule loop in `apply_scoring_rules`: dependency
check, repeat-rule check, `score_notes` call, the updates/extras id-set
assertion (skipped for `NMR_DUE_TO_MIN_STABLE_CRH_TIME`), the last-writer
`noteLabels` upsert, the attribution append, and the extras column-name
assertion followed by the outer merge. -/
def applyOneRule (st : EngineState) (rule : Rule) :
    Except String (EngineState × RuleOutput) :=
  if check_dependencies rule.dependencies st.ruleIDs = false then
    .error "dependencies have not been satisfied"
  else if rule.ruleId ∈ st.ruleIDs then .error "repeat ruleID"
  else
    match rule.score_notes st.noteStats st.noteLabels with
    | .error e => .error e
    | .ok (noteStatusUpdates, none, noteStats) =>
      .ok (⟨noteStats, lastPerKey (st.noteLabels ++ noteStatusUpdates),
            st.noteRules ++ noteStatusUpdates.map (fun u => (u.1, rule.ruleId.get_name)),
            st.noteColumns, st.ruleIDs ++ [rule.ruleId]⟩,
          ⟨rule.ruleId, rule.ruleId.get_name, noteStatusUpdates, none⟩)
    | .ok (noteStatusUpdates, some extras, noteStats) =>
      if decide (rule.ruleId ≠ RuleID.NMR_DUE_TO_MIN_STABLE_CRH_TIME) &&
          !(sameIdSet (noteStatusUpdates.map (fun u => u.1))
              (extras.rows.map (fun q => q.1))) then
        .error "updates and additional columns disagree on noteIds"
      else if extras.cols.all (fun s => decide (s ∉ st.noteColumns.cols)) then
        .ok (⟨noteStats, lastPerKey (st.noteLabels ++ noteStatusUpdates),
              st.noteRules ++ noteStatusUpdates.map (fun u => (u.1, rule.ruleId.get_name)),
              st.noteColumns.outerMerge extras, st.ruleIDs ++ [rule.ruleId]⟩,
            ⟨rule.ruleId, rule.ruleId.get_name, noteStatusUpdates, some extras.cols⟩)
      else .error "additional columns share a non-key column name"

/-- Successively applies each rule, accumulating the per-rule outputs as a
trace. -/
def runRules : List Rule → EngineState → List RuleOutput →
    Except String (EngineState × List RuleOutput)
  | [], st, trace => .ok (st, trace)
  | rule :: rest, st, trace =>
    match applyOneRule st rule with
    | .error e => .error e
    | .ok (st', out) => runRules rest st' (trace ++ [out])

/-- First-occurrence deduplication of the `noteId` column, used to form the
per-note groups of `noteRules.groupby(noteIdKey)`. -/
def dedupKeepFirstAux : List Int → List Int → List Int
  | [], _ => []
  | x :: rest, seen =>
    if x ∈ seen then dedupKeepFirstAux rest seen
    else x :: dedupKeepFirstAux rest (x :: seen)

/-- First-occurrence deduplication starting from an empty seen set. -/
def dedupKeepFirst (l : List Int) : List Int := dedupKeepFirstAux l []

/-- One row of the returned `scoredNotes` table.  `ruleList` is the per-note
attribution list built by the groupby aggregation (transient in the source,
kept here because `activeRules` and `decidedBy` are projected from it);
`extraVals` holds the note's values for the accumulated extras columns. -/
structure ScoredNote where
  row : NoteRow
  status : Status
  ruleList : List String
  activeRules : String
  decidedBy : Option String
  extraVals : List (Option String)
  currentlyRatedHelpfulBool : Bool
  currentlyRatedNotHelpfulBool : Bool
  awaitingMoreRatingsBool : Bool
deriving DecidableEq

/-- The condensed per-note attribution table,
`noteRules.groupby(noteIdKey).aggregate(list)`: one row per distinct note,
carrying the rule names appended for it in application order.  (pandas sorts
the groups by key, which is immaterial here because the result is
immediately re-keyed by the inner join with `noteStats`.) -/
def condenseNoteRules (noteRules : List (Int × String)) : List (Int × List String) :=
  (dedupKeepFirst (noteRules.map (fun p => p.1))).map
    (fun n => (n, (noteRules.filter (fun p => decide (p.1 = n))).map (fun p => p.2)))

/-- The per-note body of the final join of `apply_scoring_rules`: look up the
note's label, its condensed attribution list, and its extras values (the
label and attribution tables are keyed, one row per note, so the inner joins
are lookups; the extras join is a left join padding misses with `NaN`),
project `decidedBy` and the comma-joined rule string, and add the three
boolean status columns. -/
def scoredNoteFor (decidedByRequested : Bool) (st : EngineState) (r : NoteRow) :
    Option ScoredNote :=
  match labelOf st.noteLabels r.noteId,
      ((condenseNoteRules st.noteRules).find? (fun p => p.1 == r.noteId)).map
        (fun p => p.2) with
  | some s, some names =>
    let extraVals :=
      match st.noteColumns.rows.find? (fun p => p.1 == r.noteId) with
      | some p => p.2
      | none => List.replicate st.noteColumns.cols.length none
    some ⟨r, s, names, String.intercalate "," names,
      if decidedByRequested then names.getLast? else none, extraVals,
      decide (s = Status.crh), decide (s = Status.crnh), decide (s = Status.nmr)⟩
  | _, _ => none

/-- Finalization of `apply_scoring_rules`: check the coverage assertions,
join labels, attributions and extras onto `noteStats` row by row, and check
the length assertion. -/
def finalizeScoring (decidedByRequested : Bool) (st : EngineState) :
    Except String (List ScoredNote) :=
  let statsIds := st.noteStats.map (fun r => r.noteId)
  if !(sameIdSet statsIds (st.noteLabels.map (fun l => l.1))) then
    .error "labels missing for some notes"
  else if !(sameIdSet statsIds ((condenseNoteRules st.noteRules).map (fun p => p.1))) then
    .error "assigned rules missing for some notes"
  else if !((st.noteColumns.rows.map (fun p => p.1)).all (fun n => statsIds.contains n)) then
    .error "additional columns name unknown notes"
  else if (st.noteStats.filterMap (scoredNoteFor decidedByRequested st)).length ≠
      st.noteStats.length then
    .error "scored notes do not cover noteStats"
  else .ok (st.noteStats.filterMap (scoredNoteFor decidedByRequested st))

/-- Mirrors `apply_scoring_rules`: run every rule in order against empty
accumulators, then finalize.  `decidedByRequested` embeds whether the
optional `decidedByColumn` argument was supplied. -/
def apply_scoring_rules (noteStats : List NoteRow) (rules : List Rule)
    (decidedByRequested : Bool) : Except String (List ScoredNote) :=
  match runRules rules ⟨noteStats, [], [], ExtrasTable.empty, []⟩ [] with
  | .error e => .error e
  | .ok (st, _) => finalizeScoring decidedByRequested st

/-- Wraps `DefaultRule` for the driver; it never mutates `noteStats` and
returns no extras. -/
def DefaultRule.rule (ruleID : RuleID) (dependencies : List RuleID)
    (status : Status) : Rule :=
  ⟨ruleID, dependencies, fun ns labels =>
    .ok (DefaultRule.score_notes status ns labels, none, ns)⟩

/-- Wraps `RejectLowIntercept` for the driver; it never mutates `noteStats`
and returns no extras. -/
def RejectLowIntercept.rule (ruleID : RuleID) (dependencies : List RuleID)
    (status : Status) (firmRejectThreshold : Rat) : Rule :=
  ⟨ruleID, dependencies, fun ns labels =>
    .ok (RejectLowIntercept.score_notes status firmRejectThreshold ns labels, none, ns)⟩

/-- Wraps `ApplyModelResult` for the driver; it never mutates `noteStats`
and returns no extras, and its internal assertion surfaces as a run error. -/
def ApplyModelResult.rule (ruleID : RuleID) (dependencies : List RuleID)
    (sourceColumn : NoteRow → Option Status) (checkFirmReject : Bool)
    (filterColumnPairs : List (NoteRow → Bool)) : Rule :=
  ⟨ruleID, dependencies, fun ns _labels =>
    match ApplyModelResult.score_notes sourceColumn checkFirmReject filterColumnPairs ns with
    | .ok u => .ok (u, none, ns)
    | .error e => .error e⟩

/-! Helper lemmas about the list-table primitives. -/

theorem labelOf_nil (n : Int) : labelOf [] n = none := rfl

theorem labelOf_append (a b : Labels) (n : Int) :
    labelOf (a ++ b) n = (labelOf b n).or (labelOf a n) := by
  unfold labelOf
  rw [List.filter_append, List.getLast?_append]
  cases h : (List.filter (fun p => decide (p.1 = n)) b).getLast? <;>
    simp [h, Option.or]

theorem mem_lastPerKey {l : Labels} {p : Int × Status} (h : p ∈ lastPerKey l) :
    p ∈ l := by
  induction l with
  | nil => simp [lastPerKey] at h
  | cons q rest ih =>
    by_cases hany : (rest.any (fun x => decide (x.1 = q.1))) = true
    · rw [lastPerKey, if_pos hany] at h
      exact List.mem_cons_of_mem q (ih h)
    · rw [lastPerKey, if_neg hany] at h
      rcases List.mem_cons.mp h with h | h
      · exact h ▸ List.mem_cons_self q rest
      · exact List.mem_cons_of_mem q (ih h)

theorem labelOf_cons (p : Int × Status) (l : Labels) (n : Int) :
    labelOf (p :: l) n =
      (if p.1 = n then (labelOf l n).or (some p.2) else labelOf l n) := by
  unfold labelOf
  by_cases hn : p.1 = n
  · rw [if_pos hn, List.filter_cons, if_pos (by simp [hn])]
    have hcons : p :: l.filter (fun q => decide (q.1 = n)) =
        [p] ++ l.filter (fun q => decide (q.1 = n)) := rfl
    rw [hcons, List.getLast?_append]
    cases (l.filter (fun q => decide (q.1 = n))).getLast? <;> simp [Option.or]
  · rw [if_neg hn, List.filter_cons, if_neg (by simp [hn])]

theorem or_of_isSome {α : Type} {a b : Option α} (h : a.isSome = true) :
    a.or b = a := by
  cases a with
  | none => simp at h
  | some x => rfl

theorem labelOf_isSome_of_mem {l : Labels} {n : Int}
    (h : n ∈ l.map (fun p => p.1)) : (labelOf l n).isSome = true := by
  rcases List.mem_map.mp h with ⟨p, hp, hpn⟩
  unfold labelOf
  have hmem : p ∈ l.filter (fun q => decide (q.1 = n)) :=
    List.mem_filter.mpr ⟨hp, by simp [hpn]⟩
  have hne : l.filter (fun q => decide (q.1 = n)) ≠ [] := by
    intro hnil; rw [hnil] at hmem; simp at hmem
  rcases Option.isSome_iff_exists.mp (List.getLast?_isSome.mpr hne) with ⟨a, ha⟩
  simp [ha]

theorem labelOf_lastPerKey (l : Labels) (n : Int) :
    labelOf (lastPerKey l) n = labelOf l n := by
  induction l with
  | nil => rfl
  | cons p rest ih =>
    by_cases hany : (rest.any (fun x => decide (x.1 = p.1))) = true
    · rw [lastPerKey, if_pos hany, ih, labelOf_cons]
      by_cases hn : p.1 = n
      · rw [if_pos hn]
        have hsome : (labelOf rest n).isSome = true := by
          rcases List.any_eq_true.mp hany with ⟨x, hx, hxq⟩
          simp only [decide_eq_true_iff] at hxq
          exact labelOf_isSome_of_mem
            (List.mem_map.mpr ⟨x, hx, hxq.trans hn⟩)
        rw [or_of_isSome hsome]
      · rw [if_neg hn]
    · rw [lastPerKey, if_neg hany, labelOf_cons, labelOf_cons, ih]

theorem labelOf_mem {l : Labels} {n : Int} {s : Status}
    (h : labelOf l n = some s) : (n, s) ∈ l := by
  unfold labelOf at h
  rcases Option.map_eq_some'.mp h with ⟨p, hp, hps⟩
  have hmem := List.mem_filter.mp (List.mem_of_mem_getLast? hp)
  rcases p with ⟨pn, ps⟩
  simp only [decide_eq_true_iff] at hmem
  rcases hmem with ⟨hmem, rfl⟩
  have hps' : ps = s := hps
  exact hps' ▸ hmem

theorem sameIdSet_iff (a b : List Int) :
    sameIdSet a b = true ↔ (∀ n, n ∈ a ↔ n ∈ b) := by
  simp only [sameIdSet, Bool.and_eq_true, List.all_eq_true, List.elem_iff]
  constructor
  · rintro ⟨h1, h2⟩ n
    exact ⟨fun hn => h1 n hn, fun hn => h2 n hn⟩
  · intro h
    exact ⟨fun n hn => (h n).mp hn, fun n hn => (h n).mpr hn⟩

theorem mem_dedupKeepFirstAux (l : List Int) (seen : List Int) (n : Int) :
    n ∈ dedupKeepFirstAux l seen ↔ n ∈ l ∧ n ∉ seen := by
  induction l generalizing seen with
  | nil => simp [dedupKeepFirstAux]
  | cons x rest ih =>
    by_cases hx : x ∈ seen
    · rw [dedupKeepFirstAux, if_pos hx, ih]
      constructor
      · rintro ⟨h1, h2⟩; exact ⟨List.mem_cons_of_mem x h1, h2⟩
      · rintro ⟨h1, h2⟩
        rcases List.mem_cons.mp h1 with hnx | h1
        · exact absurd (hnx ▸ hx) h2
        · exact ⟨h1, h2⟩
    · rw [dedupKeepFirstAux, if_neg hx]
      constructor
      · intro h
        rcases List.mem_cons.mp h with hnx | h
        · exact ⟨hnx ▸ List.mem_cons_self x rest, hnx ▸ hx⟩
        · rcases (ih (x :: seen)).mp h with ⟨h1, h2⟩
          exact ⟨List.mem_cons_of_mem x h1,
            fun hs => h2 (List.mem_cons_of_mem x hs)⟩
      · rintro ⟨h1, h2⟩
        by_cases hxn : n = x
        · exact hxn ▸ List.mem_cons_self x _
        · rcases List.mem_cons.mp h1 with hnx | h1
          · exact absurd hnx hxn
          · refine List.mem_cons_of_mem x ((ih (x :: seen)).mpr ⟨h1, ?_⟩)
            intro hs
            rcases List.mem_cons.mp hs with hnx | hs
            · exact hxn hnx
            · exact h2 hs

theorem mem_dedupKeepFirst (l : List Int) (n : Int) :
    n ∈ dedupKeepFirst l ↔ n ∈ l := by
  rw [dedupKeepFirst, mem_dedupKeepFirstAux]; simp

theorem find?_keyed_map {α : Type} (keys : List Int) (f : Int → α) (n : Int) :
    ((keys.map (fun k => (k, f k))).find? (fun p => p.1 == n)) =
      (if n ∈ keys then some (n, f n) else none) := by
  induction keys with
  | nil => simp
  | cons k rest ih =>
    by_cases hk : k = n
    · subst hk
      simp [List.find?]
    · rw [List.map_cons, List.find?]
      have : ((k, f k).1 == n) = false := by simp [hk]
      rw [this]
      rw [ih]
      simp [Ne.symm hk]

theorem applyOneRule_ok_elim {st : EngineState} {rule : Rule} {st2 : EngineState}
    {out : RuleOutput} (h : applyOneRule st rule = .ok (st2, out)) :
    check_dependencies rule.dependencies st.ruleIDs = true ∧
    rule.ruleId ∉ st.ruleIDs ∧
    out.rid = rule.ruleId ∧
    out.ruleName = rule.ruleId.get_name ∧
    st2.noteLabels = lastPerKey (st.noteLabels ++ out.updates) ∧
    st2.noteRules = st.noteRules ++
      out.updates.map (fun u => (u.1, rule.ruleId.get_name)) ∧
    st2.ruleIDs = st.ruleIDs ++ [rule.ruleId] ∧
    st2.noteColumns.cols = st.noteColumns.cols ++ out.extrasCols.getD [] ∧
    (∀ cols, out.extrasCols = some cols → ∀ s ∈ cols, s ∉ st.noteColumns.cols) := by
  unfold applyOneRule at h
  by_cases hdep : check_dependencies rule.dependencies st.ruleIDs = false
  · rw [if_pos hdep] at h; cases h
  · rw [if_neg hdep] at h
    by_cases hmem : rule.ruleId ∈ st.ruleIDs
    · rw [if_pos hmem] at h; cases h
    · rw [if_neg hmem] at h
      rcases hscore : rule.score_notes st.noteStats st.noteLabels with e | v
      · rw [hscore] at h; cases h
      · rcases v with ⟨u, ac, ns⟩
        rw [hscore] at h
        cases ac with
        | none =>
          simp only [Except.ok.injEq, Prod.mk.injEq] at h
          rcases h with ⟨rfl, rfl⟩
          refine ⟨Bool.of_not_eq_false hdep, hmem, rfl, rfl, rfl, rfl, rfl, ?_, ?_⟩
          · simp
          · intro cols hcols; cases hcols
        | some extras =>
          simp only [] at h
          by_cases hid : (decide (rule.ruleId ≠ RuleID.NMR_DUE_TO_MIN_STABLE_CRH_TIME) &&
              !(sameIdSet (u.map (fun u => u.1)) (extras.rows.map (fun q => q.1)))) = true
          · rw [if_pos hid] at h; cases h
          · rw [if_neg hid] at h
            by_cases hall : (extras.cols.all (fun s => decide (s ∉ st.noteColumns.cols))) = true
            · rw [if_pos hall] at h
              simp only [Except.ok.injEq, Prod.mk.injEq] at h
              rcases h with ⟨rfl, rfl⟩
              refine ⟨Bool.of_not_eq_false hdep, hmem, rfl, rfl, rfl, rfl, rfl, ?_, ?_⟩
              · simp [ExtrasTable.outerMerge]
              · intro cols hcols
                simp only [Option.some.injEq] at hcols
                subst hcols
                intro s hs
                have := List.all_eq_true.mp hall s hs
                simpa using this
            · rw [if_neg hall] at h; cases h

theorem runRules_eq_ok_cons {rule : Rule} {rest : List Rule} {st : EngineState}
    {tr : List RuleOutput} {st' : EngineState} {tr' : List RuleOutput} :
    runRules (rule :: rest) st tr = .ok (st', tr') ↔
      ∃ st1 out, applyOneRule st rule = .ok (st1, out) ∧
        runRules rest st1 (tr ++ [out]) = .ok (st', tr') := by
  constructor
  · intro h
    rw [runRules] at h
    rcases happ : applyOneRule st rule with e | v
    · rw [happ] at h; cases h
    · rcases v with ⟨st1, o⟩
      rw [happ] at h
      exact ⟨st1, o, rfl, h⟩
  · rintro ⟨st1, o, happ, hrun⟩
    rw [runRules, happ]
    exact hrun

theorem runRules_state {rules : List Rule} {st : EngineState}
    {tr : List RuleOutput} {st' : EngineState} {tr' : List RuleOutput}
    (h : runRules rules st tr = .ok (st', tr')) :
    ∃ tr2, tr' = tr ++ tr2 ∧
      tr2.map (fun e => e.rid) = rules.map (fun r => r.ruleId) ∧
      (∀ e ∈ tr2, e.ruleName = e.rid.get_name) ∧
      st'.ruleIDs = st.ruleIDs ++ rules.map (fun r => r.ruleId) ∧
      st'.noteRules = st.noteRules ++
        tr2.flatMap (fun e => e.updates.map (fun u => (u.1, e.ruleName))) ∧
      st'.noteColumns.cols = st.noteColumns.cols ++
        tr2.flatMap (fun e => e.extrasCols.getD []) ∧
      (∀ n, labelOf st'.noteLabels n =
        (labelOf (tr2.flatMap (fun e => e.updates)) n).or (labelOf st.noteLabels n)) := by
  induction rules generalizing st tr with
  | nil =>
    rw [runRules] at h
    simp only [Except.ok.injEq, Prod.mk.injEq] at h
    rcases h with ⟨rfl, rfl⟩
    exact ⟨[], by simp, by simp, by simp, by simp, by simp, by simp,
      fun n => by simp [labelOf_nil, Option.none_or]⟩
  | cons rule rest ih =>
    rcases runRules_eq_ok_cons.mp h with ⟨st1, o, happ, hrun⟩
    obtain ⟨_hdep, _hmem, hrid, hname, hlabels, hrules, hids, hcols, _hdisj⟩ :=
      applyOneRule_ok_elim happ
    obtain ⟨tr2, rfl, hmap, hnames, hids', hrules', hcols', hlab'⟩ := ih hrun
    refine ⟨o :: tr2, by simp, ?_, ?_, ?_, ?_, ?_, ?_⟩
    · simp [hmap, hrid]
    · intro e he
      rcases List.mem_cons.mp he with rfl | he
      · rw [hname, hrid]
      · exact hnames e he
    · rw [hids', hids]
      simp
    · rw [hrules', hrules, List.flatMap_cons, ← hname, List.append_assoc]
    · rw [hcols', hcols, List.flatMap_cons, List.append_assoc]
    · intro n
      rw [hlab' n, hlabels, labelOf_lastPerKey, labelOf_append,
        List.flatMap_cons, labelOf_append, Option.or_assoc]

theorem runRules_checks {rules : List Rule} {st : EngineState}
    {tr : List RuleOutput} {st' : EngineState} {tr' : List RuleOutput}
    (h : runRules rules st tr = .ok (st', tr')) :
    ∀ i (hi : i < rules.length),
      check_dependencies (rules.get ⟨i, hi⟩).dependencies
        (st.ruleIDs ++ (rules.take i).map (fun r => r.ruleId)) = true ∧
      (rules.get ⟨i, hi⟩).ruleId ∉
        st.ruleIDs ++ (rules.take i).map (fun r => r.ruleId) := by
  induction rules generalizing st tr with
  | nil => intro i hi; cases hi
  | cons rule rest ih =>
    rcases runRules_eq_ok_cons.mp h with ⟨st1, o, happ, hrun⟩
    obtain ⟨hdep, hmem, _, _, _, _, hids, _, _⟩ := applyOneRule_ok_elim happ
    intro i hi
    cases i with
    | zero =>
      constructor
      · simpa using hdep
      · simpa using hmem
    | succ j =>
      have hj : j < rest.length := Nat.lt_of_succ_lt_succ hi
      have := ih hrun j hj
      rw [hids] at this
      simpa [List.take_succ_cons, List.append_assoc] using this

theorem runRules_extras_disjoint {rules : List Rule} {st : EngineState}
    {tr : List RuleOutput} {st' : EngineState} {tr' : List RuleOutput}
    (h : runRules rules st tr = .ok (st', tr'))
    (hprev : ∀ e ∈ tr, ∀ cols, e.extrasCols = some cols →
      ∀ s ∈ cols, s ∈ st.noteColumns.cols)
    (hpair : tr.Pairwise (fun e1 e2 => ∀ c1 c2, e1.extrasCols = some c1 →
      e2.extrasCols = some c2 → ∀ s ∈ c1, s ∉ c2)) :
    tr'.Pairwise (fun e1 e2 => ∀ c1 c2, e1.extrasCols = some c1 →
      e2.extrasCols = some c2 → ∀ s ∈ c1, s ∉ c2) := by
  induction rules generalizing st tr with
  | nil =>
    rw [runRules] at h
    simp only [Except.ok.injEq, Prod.mk.injEq] at h
    rcases h with ⟨rfl, rfl⟩
    exact hpair
  | cons rule rest ih =>
    rcases runRules_eq_ok_cons.mp h with ⟨st1, o, happ, hrun⟩
    obtain ⟨_, _, _, _, _, _, _, hcols, hdisj⟩ := applyOneRule_ok_elim happ
    refine ih hrun ?_ ?_
    · intro e he cols hc s hs
      rw [hcols]
      rcases List.mem_append.mp he with he | he
      · exact List.mem_append.mpr (Or.inl (hprev e he cols hc s hs))
      · have : e = o := by simpa using he
        subst this
        refine List.mem_append.mpr (Or.inr ?_)
        rw [hc]
        simpa using hs
    · rw [List.pairwise_append]
      refine ⟨hpair, by simp, ?_⟩
      intro a ha b hb
      have : b = o := by simpa using hb
      subst this
      intro c1 c2 hc1 hc2 s hs1 hs2
      exact hdisj c2 hc2 s hs2 (hprev a ha c1 hc1 s hs1)

theorem scoredNoteFor_spec {req : Bool} {st : EngineState} {r : NoteRow}
    {sc : ScoredNote} (h : scoredNoteFor req st r = some sc) :
    sc.row = r ∧
    labelOf st.noteLabels r.noteId = some sc.status ∧
    sc.ruleList = (st.noteRules.filter
      (fun p => decide (p.1 = r.noteId))).map (fun p => p.2) ∧
    sc.ruleList ≠ [] ∧
    sc.activeRules = String.intercalate "," sc.ruleList ∧
    sc.decidedBy = (if req then sc.ruleList.getLast? else none) ∧
    sc.currentlyRatedHelpfulBool = decide (sc.status = Status.crh) ∧
    sc.currentlyRatedNotHelpfulBool = decide (sc.status = Status.crnh) ∧
    sc.awaitingMoreRatingsBool = decide (sc.status = Status.nmr) := by
  unfold scoredNoteFor at h
  rcases hl : labelOf st.noteLabels r.noteId with _ | s
  · rw [hl] at h
    cases h
  · rw [hl, condenseNoteRules, find?_keyed_map] at h
    by_cases hin : r.noteId ∈ dedupKeepFirst (st.noteRules.map (fun p => p.1))
    · rw [if_pos hin] at h
      simp only [Option.map_some'] at h
      have hsc := (Option.some.inj h).symm
      subst hsc
      refine ⟨rfl, rfl, rfl, ?_, rfl, rfl, rfl, rfl, rfl⟩
      have hmemkeys : r.noteId ∈ st.noteRules.map (fun p => p.1) :=
        (mem_dedupKeepFirst _ _).mp hin
      rcases List.mem_map.mp hmemkeys with ⟨p, hp, hpn⟩
      have hpf : p ∈ st.noteRules.filter (fun q => decide (q.1 = r.noteId)) :=
        List.mem_filter.mpr ⟨hp, by simp [hpn]⟩
      intro hnil
      simp only at hnil
      rw [List.map_eq_nil_iff] at hnil
      rw [hnil] at hpf
      simp at hpf
    · rw [if_neg hin] at h
      simp at h

theorem scoredNoteFor_isSome (req : Bool) {st : EngineState} {r : NoteRow}
    (hlab : (labelOf st.noteLabels r.noteId).isSome = true)
    (hin : r.noteId ∈ dedupKeepFirst (st.noteRules.map (fun p => p.1))) :
    ∃ sc, scoredNoteFor req st r = some sc := by
  rcases Option.isSome_iff_exists.mp hlab with ⟨s, hs⟩
  unfold scoredNoteFor
  rw [hs, condenseNoteRules, find?_keyed_map, if_pos hin]
  simp

theorem finalizeScoring_ok_spec {req : Bool} {st : EngineState}
    {out : List ScoredNote} (h : finalizeScoring req st = .ok out) :
    (∀ sc ∈ out, sc.row ∈ st.noteStats ∧
      labelOf st.noteLabels sc.row.noteId = some sc.status ∧
      sc.ruleList = (st.noteRules.filter
        (fun p => decide (p.1 = sc.row.noteId))).map (fun p => p.2) ∧
      sc.ruleList ≠ [] ∧
      sc.activeRules = String.intercalate "," sc.ruleList ∧
      sc.decidedBy = (if req then sc.ruleList.getLast? else none) ∧
      sc.currentlyRatedHelpfulBool = decide (sc.status = Status.crh) ∧
      sc.currentlyRatedNotHelpfulBool = decide (sc.status = Status.crnh) ∧
      sc.awaitingMoreRatingsBool = decide (sc.status = Status.nmr)) ∧
    (∀ r ∈ st.noteStats, ∃ sc ∈ out, sc.row = r) := by
  unfold finalizeScoring at h
  by_cases h1 : (!(sameIdSet (st.noteStats.map (fun r => r.noteId))
      (st.noteLabels.map (fun l => l.1)))) = true
  · rw [if_pos h1] at h; cases h
  · rw [if_neg h1] at h
    have hlabcov : sameIdSet (st.noteStats.map (fun r => r.noteId))
        (st.noteLabels.map (fun l => l.1)) = true := by
      revert h1
      cases sameIdSet (st.noteStats.map (fun r => r.noteId))
        (st.noteLabels.map (fun l => l.1)) <;> simp
    by_cases h2 : (!(sameIdSet (st.noteStats.map (fun r => r.noteId))
        ((condenseNoteRules st.noteRules).map (fun p => p.1)))) = true
    · rw [if_pos h2] at h; cases h
    · rw [if_neg h2] at h
      have hrulecov : sameIdSet (st.noteStats.map (fun r => r.noteId))
          ((condenseNoteRules st.noteRules).map (fun p => p.1)) = true := by
        revert h2
        cases sameIdSet (st.noteStats.map (fun r => r.noteId))
          ((condenseNoteRules st.noteRules).map (fun p => p.1)) <;> simp
      by_cases h3 : (!((st.noteColumns.rows.map (fun p => p.1)).all
          (fun n => (st.noteStats.map (fun r => r.noteId)).contains n))) = true
      · rw [if_pos h3] at h; cases h
      · rw [if_neg h3] at h
        by_cases hlen : (st.noteStats.filterMap (scoredNoteFor req st)).length ≠
            st.noteStats.length
        · rw [if_pos hlen] at h; cases h
        · rw [if_neg hlen] at h
          simp only [Except.ok.injEq] at h
          subst h
          constructor
          · intro sc hsc
            rcases List.mem_filterMap.mp hsc with ⟨r, hr, hg⟩
            obtain ⟨hrow, hlab, hrl, hne, hact, hdec, hb1, hb2, hb3⟩ :=
              scoredNoteFor_spec hg
            subst hrow
            exact ⟨hr, hlab, hrl, hne, hact, hdec, hb1, hb2, hb3⟩
          · intro r hr
            have hid : r.noteId ∈ st.noteStats.map (fun x => x.noteId) :=
              List.mem_map.mpr ⟨r, hr, rfl⟩
            have hlabmem : r.noteId ∈ st.noteLabels.map (fun l => l.1) :=
              ((sameIdSet_iff _ _).mp hlabcov r.noteId).mp hid
            have hcondmem : r.noteId ∈
                (condenseNoteRules st.noteRules).map (fun p => p.1) :=
              ((sameIdSet_iff _ _).mp hrulecov r.noteId).mp hid
            have hdedup : r.noteId ∈ dedupKeepFirst (st.noteRules.map (fun p => p.1)) := by
              rw [condenseNoteRules] at hcondmem
              rcases List.mem_map.mp hcondmem with ⟨q, hq, hqn⟩
              rcases List.mem_map.mp hq with ⟨k, hk, hkq⟩
              subst hkq
              simpa [← hqn] using hk
            rcases scoredNoteFor_isSome req
              (labelOf_isSome_of_mem hlabmem) hdedup with ⟨sc, hsc⟩
            refine ⟨sc, List.mem_filterMap.mpr ⟨r, hr, hsc⟩, ?_⟩
            exact (scoredNoteFor_spec hsc).1

theorem labelOf_eq_none {u : Labels} {n : Int}
    (h : n ∉ u.map (fun p => p.1)) : labelOf u n = none := by
  unfold labelOf
  have : u.filter (fun p => decide (p.1 = n)) = [] := by
    refine List.filter_eq_nil_iff.mpr (fun p hp => ?_)
    simp only [decide_eq_true_iff]
    intro hpn
    exact h (List.mem_map.mpr ⟨p, hp, hpn⟩)
  rw [this]
  rfl

theorem any_key_iff_labelOf_isSome (u : Labels) (n : Int) :
    (u.any (fun p => decide (p.1 = n))) = true ↔ (labelOf u n).isSome = true := by
  constructor
  · intro h
    rcases List.any_eq_true.mp h with ⟨p, hp, hpn⟩
    simp only [decide_eq_true_iff] at hpn
    exact labelOf_isSome_of_mem (List.mem_map.mpr ⟨p, hp, hpn⟩)
  · intro h
    rcases Option.isSome_iff_exists.mp h with ⟨s, hs⟩
    have := labelOf_mem hs
    exact List.any_eq_true.mpr ⟨(n, s), this, by simp⟩

theorem filter_keyed_names {u : List (Int × Status)} (nm : String) (n : Int)
    (hnd : (u.map (fun p => p.1)).Nodup) :
    ((u.map (fun p => (p.1, nm))).filter (fun p => decide (p.1 = n))).map
        (fun p => p.2) =
      (if (u.any (fun p => decide (p.1 = n))) = true then [nm] else []) := by
  induction u with
  | nil => simp
  | cons q rest ih =>
    rw [List.map_cons] at hnd ⊢
    rcases List.nodup_cons.mp hnd with ⟨hq, hnd'⟩
    by_cases hqn : q.1 = n
    · rw [List.filter_cons, if_pos (by simp [hqn])]
      have hrest : (rest.map (fun p => (p.1, nm))).filter
          (fun p => decide (p.1 = n)) = [] := by
        refine List.filter_eq_nil_iff.mpr (fun p hp => ?_)
        rcases List.mem_map.mp hp with ⟨x, hx, hxp⟩
        subst hxp
        simp only [decide_eq_true_iff]
        intro hxn
        exact hq (hqn ▸ hxn ▸ List.mem_map.mpr ⟨x, hx, rfl⟩)
      rw [hrest]
      rw [if_pos (List.any_eq_true.mpr ⟨q, List.mem_cons_self q rest, by simp [hqn]⟩)]
      rfl
    · rw [List.filter_cons, if_neg (by simp [hqn]), ih hnd']
      by_cases hany : (rest.any (fun p => decide (p.1 = n))) = true
      · rw [if_pos hany, if_pos (List.any_eq_true.mpr (by
          rcases List.any_eq_true.mp hany with ⟨x, hx, hxn⟩
          exact ⟨x, List.mem_cons_of_mem q hx, hxn⟩))]
      · rw [if_neg hany, if_neg (by
          intro hc
          rcases List.any_eq_true.mp hc with ⟨x, hx, hxn⟩
          rcases List.mem_cons.mp hx with rfl | hx
          · simp only [decide_eq_true_iff] at hxn
            exact hqn hxn
          · exact hany (List.any_eq_true.mpr ⟨x, hx, hxn⟩))]

theorem trace_ruleNames (trace : List RuleOutput) (n : Int)
    (hnd : ∀ e ∈ trace, (e.updates.map (fun p => p.1)).Nodup) :
    ((trace.flatMap (fun e => e.updates.map (fun u => (u.1, e.ruleName)))).filter
        (fun p => decide (p.1 = n))).map (fun p => p.2) =
      (trace.filter (fun e => e.updates.any (fun p => decide (p.1 = n)))).map
        (fun e => e.ruleName) := by
  induction trace with
  | nil => simp
  | cons e rest ih =>
    rw [List.flatMap_cons, List.filter_append, List.map_append,
      filter_keyed_names e.ruleName n (hnd e (List.mem_cons_self e rest)),
      ih (fun x hx => hnd x (List.mem_cons_of_mem e hx))]
    by_cases hany : (e.updates.any (fun p => decide (p.1 = n))) = true
    · rw [if_pos hany, List.filter_cons, if_pos hany]
      rfl
    · rw [if_neg hany, List.filter_cons, if_neg hany]
      rfl

theorem trace_labelOf (trace : List RuleOutput) (n : Int) :
    labelOf (trace.flatMap (fun e => e.updates)) n =
      ((trace.filter (fun e => e.updates.any (fun p => decide (p.1 = n)))).getLast?).bind
        (fun e => labelOf e.updates n) := by
  induction trace with
  | nil => simp [labelOf_nil]
  | cons e rest ih =>
    rw [List.flatMap_cons, labelOf_append, ih]
    by_cases hany : (e.updates.any (fun p => decide (p.1 = n))) = true
    · rw [List.filter_cons, if_pos hany]
      rcases hfr : rest.filter (fun x => x.updates.any (fun p => decide (p.1 = n)))
        with _ | ⟨a, fr'⟩
      · rw [hfr]
        simp [Option.or]
      · rw [hfr, List.getLast?_cons_cons]
        obtain ⟨b, hb⟩ := Option.isSome_iff_exists.mp
          (List.getLast?_isSome.mpr (by simp : (a :: fr') ≠ []))
        rw [hb]
        have hbsome : (labelOf b.updates n).isSome = true := by
          have hbmem : b ∈ a :: fr' := List.mem_of_mem_getLast? hb
          have hmem2 : b ∈ rest.filter
              (fun x => x.updates.any (fun p => decide (p.1 = n))) := by
            rw [hfr]; exact hbmem
          have hbany := (List.mem_filter.mp hmem2).2
          exact (any_key_iff_labelOf_isSome b.updates n).mp hbany
        rcases Option.isSome_iff_exists.mp hbsome with ⟨sb, hsb⟩
        simp [Option.or, hsb]
    · rw [List.filter_cons, if_neg hany]
      have : labelOf e.updates n = none := by
        rcases h : (labelOf e.updates n).isSome with _ | _
        · exact Option.not_isSome_iff_eq_none.mp (by simp [h])
        · exact absurd ((any_key_iff_labelOf_isSome e.updates n).mpr h) hany
      rw [this, Option.or_none]

theorem keyed_unique {α : Type} {l : List (Int × α)} {n : Int} {a b : α}
    (h : (l.map (fun p => p.1)).Nodup) (ha : (n, a) ∈ l) (hb : (n, b) ∈ l) :
    a = b := by
  have := List.inj_on_of_nodup_map h ha hb rfl
  exact congrArg Prod.snd this

theorem mem_considered {noteStats : List NoteRow} {currentLabels : Labels}
    {q : NoteRow × Status} :
    q ∈ NmrDueToMinStableCrhTime.considered noteStats currentLabels ↔
      q.1 ∈ noteStats ∧ q.1.currentLabel ≠ some Status.crh ∧
      (q.1.noteId, q.2) ∈ currentLabels ∧
      (q.2 = Status.crh ∨ timestampPositive q.1 = true) := by
  unfold NmrDueToMinStableCrhTime.considered
  constructor
  · intro h
    rcases List.mem_filter.mp h with ⟨hmerged, hcond⟩
    rcases List.mem_flatMap.mp hmerged with ⟨r, hr, hq⟩
    rcases List.mem_map.mp hq with ⟨l, hl, hlq⟩
    rcases List.mem_filter.mp hr with ⟨hrns, hrlab⟩
    rcases List.mem_filter.mp hl with ⟨hlcl, hlkey⟩
    simp only [decide_eq_true_iff] at hrlab hlkey
    subst hlq
    refine ⟨hrns, hrlab, ?_, ?_⟩
    · have hpair : (r.noteId, l.2) = l := by
        rcases l with ⟨a, b⟩
        simp only at hlkey
        simp [hlkey]
      simp only []
      rw [hpair]
      exact hlcl
    · simpa [Bool.or_eq_true, decide_eq_true_iff] using hcond
  · rintro ⟨hns, hlab, hcl, hcond⟩
    refine List.mem_filter.mpr ⟨?_, ?_⟩
    · refine List.mem_flatMap.mpr ⟨q.1, List.mem_filter.mpr ⟨hns, by simp [hlab]⟩, ?_⟩
      refine List.mem_map.mpr ⟨(q.1.noteId, q.2), List.mem_filter.mpr ⟨hcl, by simp⟩, rfl⟩
    · simpa [Bool.or_eq_true, decide_eq_true_iff] using hcond

theorem apply_scoring_rules_ok_elim {noteStats : List NoteRow} {rules : List Rule}
    {req : Bool} {out : List ScoredNote}
    (h : apply_scoring_rules noteStats rules req = .ok out) :
    ∃ st trace,
      runRules rules ⟨noteStats, [], [], ExtrasTable.empty, []⟩ [] = .ok (st, trace) ∧
      finalizeScoring req st = .ok out := by
  unfold apply_scoring_rules at h
  rcases hr : runRules rules ⟨noteStats, [], [], ExtrasTable.empty, []⟩ [] with e | v
  · rw [hr] at h; cases h
  · rcases v with ⟨st, trace⟩
    rw [hr] at h
    exact ⟨st, trace, rfl, h⟩

/-- Projects the status column of an engine result, the empty list standing
for a failed run. -/
def outputStatuses (res : Except String (List ScoredNote)) : List Status :=
  match res with
  | .ok out => out.map (fun sc => sc.status)
  | .error _ => []

/-- Extracts the value of a successful run, a supplied default standing for
a failed run. -/
def okOr {α : Type} (d : α) (x : Except String α) : α :=
  match x with
  | .ok v => v
  | .error _ => d

theorem rowOutcome_crh_none (thr now : Int) :
    NmrDueToMinStableCrhTime.rowOutcome thr now Status.crh none =
      (some Status.nmr, some now) := rfl

theorem rowOutcome_crh_nonpos (thr now t : Int) (h : t ≤ 0) :
    NmrDueToMinStableCrhTime.rowOutcome thr now Status.crh (some t) =
      (some Status.nmr, some now) := by
  unfold NmrDueToMinStableCrhTime.rowOutcome
  rw [if_pos rfl]
  show (if t ≤ 0 then ((some Status.nmr : Option Status), (some now : Option Int))
    else if thr * 60 * 1000 ≤ now - t then (some Status.crh, some (-1))
    else (some Status.nmr, some t)) = (some Status.nmr, some now)
  rw [if_pos h]

theorem rowOutcome_crh_matured (thr now t : Int) (h1 : 0 < t)
    (h2 : thr * 60 * 1000 ≤ now - t) :
    NmrDueToMinStableCrhTime.rowOutcome thr now Status.crh (some t) =
      (some Status.crh, some (-1)) := by
  unfold NmrDueToMinStableCrhTime.rowOutcome
  rw [if_pos rfl]
  show (if t ≤ 0 then ((some Status.nmr : Option Status), (some now : Option Int))
    else if thr * 60 * 1000 ≤ now - t then (some Status.crh, some (-1))
    else (some Status.nmr, some t)) = (some Status.crh, some (-1))
  rw [if_neg (by omega), if_pos h2]

theorem rowOutcome_crh_young (thr now t : Int) (h1 : 0 < t)
    (h2 : now - t < thr * 60 * 1000) :
    NmrDueToMinStableCrhTime.rowOutcome thr now Status.crh (some t) =
      (some Status.nmr, some t) := by
  unfold NmrDueToMinStableCrhTime.rowOutcome
  rw [if_pos rfl]
  show (if t ≤ 0 then ((some Status.nmr : Option Status), (some now : Option Int))
    else if thr * 60 * 1000 ≤ now - t then (some Status.crh, some (-1))
    else (some Status.nmr, some t)) = (some Status.nmr, some t)
  rw [if_neg (by omega), if_neg (by omega)]

theorem rowOutcome_noncrh_pos (thr now : Int) (s : Status) (t : Int)
    (hs : s ≠ Status.crh) (h : 0 < t) :
    NmrDueToMinStableCrhTime.rowOutcome thr now s (some t) =
      (none, some (-1)) := by
  unfold NmrDueToMinStableCrhTime.rowOutcome
  rw [if_neg hs]
  show (if 0 < t then ((none : Option Status), (some (-1) : Option Int))
    else (none, some t)) = (none, some (-1))
  rw [if_pos h]

theorem stable_upd_mem_iff (thr now : Int) (ns : List NoteRow) (cl : Labels)
    (n : Int) :
    n ∈ ((NmrDueToMinStableCrhTime.score_notes thr now ns cl).1).map
        (fun p => p.1) ↔
      ∃ q ∈ NmrDueToMinStableCrhTime.considered ns cl,
        q.1.noteId = n ∧
        (decide (q.2 = Status.crh) &&
          decide ((NmrDueToMinStableCrhTime.rowOutcome thr now q.2
            q.1.timestampMillisOfNmrDueToMinStableCrhTime).1 =
              some Status.nmr)) = true := by
  constructor
  · intro h
    rcases List.mem_map.mp h with ⟨p, hp, hpn⟩
    rcases List.mem_map.mp hp with ⟨q, hq, hqp⟩
    rcases List.mem_filter.mp hq with ⟨hqc, hcond⟩
    refine ⟨q, hqc, ?_, hcond⟩
    rw [← hqp] at hpn
    exact hpn
  · rintro ⟨q, hq, hqn, hcond⟩
    exact List.mem_map.mpr ⟨(q.1.noteId, Status.nmr),
      List.mem_map.mpr ⟨q, List.mem_filter.mpr ⟨hq, hcond⟩, rfl⟩, hqn⟩

theorem stable_upd_mem_of (thr now : Int) (ns : List NoteRow) (cl : Labels)
    {q : NoteRow × Status}
    (hq : q ∈ NmrDueToMinStableCrhTime.considered ns cl)
    (hcrh : q.2 = Status.crh)
    (hout : (NmrDueToMinStableCrhTime.rowOutcome thr now q.2
      q.1.timestampMillisOfNmrDueToMinStableCrhTime).1 = some Status.nmr) :
    (q.1.noteId, Status.nmr) ∈ (NmrDueToMinStableCrhTime.score_notes thr now ns cl).1 := by
  refine List.mem_map.mpr ⟨q, List.mem_filter.mpr ⟨hq, ?_⟩, rfl⟩
  rw [hcrh] at hout
  simp [hcrh, hout]

theorem stable_bk_mem_of (thr now : Int) (ns : List NoteRow) (cl : Labels)
    {q : NoteRow × Status}
    (hq : q ∈ NmrDueToMinStableCrhTime.considered ns cl) :
    (q.1.noteId, (NmrDueToMinStableCrhTime.rowOutcome thr now q.2
      q.1.timestampMillisOfNmrDueToMinStableCrhTime).2) ∈
      (NmrDueToMinStableCrhTime.score_notes thr now ns cl).2 :=
  List.mem_map.mpr ⟨q, hq, rfl⟩

theorem stable_bk_id_mem_iff (thr now : Int) (ns : List NoteRow) (cl : Labels)
    (n : Int) :
    n ∈ ((NmrDueToMinStableCrhTime.score_notes thr now ns cl).2).map
        (fun p => p.1) ↔
      ∃ q ∈ NmrDueToMinStableCrhTime.considered ns cl, q.1.noteId = n := by
  constructor
  · intro h
    rcases List.mem_map.mp h with ⟨p, hp, hpn⟩
    rcases List.mem_map.mp hp with ⟨q, hq, hqp⟩
    refine ⟨q, hq, ?_⟩
    rw [← hqp] at hpn
    exact hpn
  · rintro ⟨q, hq, hqn⟩
    exact List.mem_map.mpr ⟨(q.1.noteId, _), List.mem_map.mpr ⟨q, hq, rfl⟩, hqn⟩

theorem considered_unique {ns : List NoteRow} {cl : Labels}
    (hns : (ns.map (fun r => r.noteId)).Nodup)
    (hcl : (cl.map (fun l => l.1)).Nodup)
    {q : NoteRow × Status} {r : NoteRow} {s : Status}
    (hq : q ∈ NmrDueToMinStableCrhTime.considered ns cl)
    (hr : r ∈ ns) (hs : (r.noteId, s) ∈ cl) (hid : q.1.noteId = r.noteId) :
    q = (r, s) := by
  rcases mem_considered.mp hq with ⟨hq1, _, hq2, _⟩
  have hrow : q.1 = r := List.inj_on_of_nodup_map hns hq1 hr hid
  have hstat : q.2 = s := by
    rw [hrow] at hq2
    exact keyed_unique hcl hq2 hs
  rcases q with ⟨qr, qs⟩
  simp only at hrow hstat
  rw [hrow, hstat]

/-- Claim C5: `NmrDueToMinStableCrhTime.score_notes` emits a status update
only for notes that actually flip CRH to NMR: every emitted update carries
NMR, a currently-CRH note with positive timestamp `T` satisfying
`now - T ≥ requiredStableCrhMinutes*60*1000` keeps CRH and has no row in the
updates table, and the bookkeeping extras carry the updated timestamp for
all considered rows per the five-row table: (CRH, `T` missing or `≤ 0`) maps
to NMR with `T' = now`; (CRH, `T > 0`, matured) keeps CRH with `T' = -1`;
(CRH, `T > 0`, not matured) maps to NMR with `T' = T`; (non-CRH, `T > 0`)
keeps its status with `T' = -1`; otherwise the note is untouched. -/
theorem claim_C5_stableCrhTable (thr now : Int) (noteStats : List NoteRow)
    (currentLabels : Labels)
    (hns : (noteStats.map (fun r => r.noteId)).Nodup)
    (hcl : (currentLabels.map (fun l => l.1)).Nodup) :
    (∀ p ∈ (NmrDueToMinStableCrhTime.score_notes thr now noteStats currentLabels).1,
      p.2 = Status.nmr) ∧
    ∀ r ∈ noteStats, ∀ s, (r.noteId, s) ∈ currentLabels →
      r.currentLabel ≠ some Status.crh →
      ((s = Status.crh →
          (r.timestampMillisOfNmrDueToMinStableCrhTime = none ∨
            (∃ t, r.timestampMillisOfNmrDueToMinStableCrhTime = some t ∧ t ≤ 0)) →
          (r.noteId, Status.nmr) ∈
            (NmrDueToMinStableCrhTime.score_notes thr now noteStats currentLabels).1 ∧
          (r.noteId, some now) ∈
            (NmrDueToMinStableCrhTime.score_notes thr now noteStats currentLabels).2) ∧
       (∀ t, s = Status.crh →
          r.timestampMillisOfNmrDueToMinStableCrhTime = some t → 0 < t →
          thr * 60 * 1000 ≤ now - t →
          r.noteId ∉ ((NmrDueToMinStableCrhTime.score_notes thr now noteStats
            currentLabels).1).map (fun p => p.1) ∧
          (r.noteId, some (-1)) ∈
            (NmrDueToMinStableCrhTime.score_notes thr now noteStats currentLabels).2) ∧
       (∀ t, s = Status.crh →
          r.timestampMillisOfNmrDueToMinStableCrhTime = some t → 0 < t →
          now - t < thr * 60 * 1000 →
          (r.noteId, Status.nmr) ∈
            (NmrDueToMinStableCrhTime.score_notes thr now noteStats currentLabels).1 ∧
          (r.noteId, some t) ∈
            (NmrDueToMinStableCrhTime.score_notes thr now noteStats currentLabels).2) ∧
       (∀ t, s ≠ Status.crh →
          r.timestampMillisOfNmrDueToMinStableCrhTime = some t → 0 < t →
          r.noteId ∉ ((NmrDueToMinStableCrhTime.score_notes thr now noteStats
            currentLabels).1).map (fun p => p.1) ∧
          (r.noteId, some (-1)) ∈
            (NmrDueToMinStableCrhTime.score_notes thr now noteStats currentLabels).2) ∧
       (s ≠ Status.crh → timestampPositive r = false →
          r.noteId ∉ ((NmrDueToMinStableCrhTime.score_notes thr now noteStats
            currentLabels).1).map (fun p => p.1) ∧
          r.noteId ∉ ((NmrDueToMinStableCrhTime.score_notes thr now noteStats
            currentLabels).2).map (fun p => p.1))) := by
  constructor
  · intro p hp
    rcases List.mem_map.mp hp with ⟨q, _, hqp⟩
    rw [← hqp]
  · intro r hr s hs hlab
    have hqmem : ∀ (hcond : s = Status.crh ∨ timestampPositive r = true),
        ((r, s) : NoteRow × Status) ∈
          NmrDueToMinStableCrhTime.considered noteStats currentLabels :=
      fun hcond => mem_considered.mpr ⟨hr, hlab, hs, hcond⟩
    refine ⟨?_, ?_, ?_, ?_, ?_⟩
    · rintro rfl hT
      have hq := hqmem (Or.inl rfl)
      have hout : (NmrDueToMinStableCrhTime.rowOutcome thr now Status.crh
          r.timestampMillisOfNmrDueToMinStableCrhTime) =
          (some Status.nmr, some now) := by
        rcases hT with hT | ⟨t, hT, ht⟩
        · rw [hT]; exact rowOutcome_crh_none thr now
        · rw [hT]; exact rowOutcome_crh_nonpos thr now t ht
      exact ⟨stable_upd_mem_of thr now _ _ hq rfl (by rw [hout]),
        by simpa [hout] using stable_bk_mem_of thr now _ _ hq⟩
    · rintro t rfl hT ht hmat
      have hq := hqmem (Or.inl rfl)
      have hout : (NmrDueToMinStableCrhTime.rowOutcome thr now Status.crh
          r.timestampMillisOfNmrDueToMinStableCrhTime) =
          (some Status.crh, some (-1)) := by
        rw [hT]; exact rowOutcome_crh_matured thr now t ht hmat
      constructor
      · intro hcontra
        rcases (stable_upd_mem_iff thr now _ _ _).mp hcontra with ⟨q, hqc, hqn, hcond⟩
        have := considered_unique hns hcl hqc hr hs hqn
        subst this
        simp [hout] at hcond
      · simpa [hout] using stable_bk_mem_of thr now _ _ hq
    · rintro t rfl hT ht hnot
      have hq := hqmem (Or.inl rfl)
      have hout : (NmrDueToMinStableCrhTime.rowOutcome thr now Status.crh
          r.timestampMillisOfNmrDueToMinStableCrhTime) =
          (some Status.nmr, some t) := by
        rw [hT]; exact rowOutcome_crh_young thr now t ht hnot
      exact ⟨stable_upd_mem_of thr now _ _ hq rfl (by rw [hout]),
        by simpa [hout] using stable_bk_mem_of thr now _ _ hq⟩
    · rintro t hne hT ht
      have hpos : timestampPositive r = true := by
        simp [timestampPositive, hT, ht]
      have hq := hqmem (Or.inr hpos)
      have hout : (NmrDueToMinStableCrhTime.rowOutcome thr now s
          r.timestampMillisOfNmrDueToMinStableCrhTime) = (none, some (-1)) := by
        rw [hT]; exact rowOutcome_noncrh_pos thr now s t hne ht
      constructor
      · intro hcontra
        rcases (stable_upd_mem_iff thr now _ _ _).mp hcontra with ⟨q, hqc, hqn, hcond⟩
        have := considered_unique hns hcl hqc hr hs hqn
        subst this
        simp [hne] at hcond
      · simpa [hout] using stable_bk_mem_of thr now _ _ hq
    · intro hne hpos
      constructor
      · intro hcontra
        rcases (stable_upd_mem_iff thr now _ _ _).mp hcontra with ⟨q, hqc, hqn, hcond⟩
        have := considered_unique hns hcl hqc hr hs hqn
        subst this
        simp [hne] at hcond
      · intro hcontra
        rcases (stable_bk_id_mem_iff thr now _ _ _).mp hcontra with ⟨q, hqc, hqn⟩
        have := considered_unique hns hcl hqc hr hs hqn
        subst this
        rcases mem_considered.mp hqc with ⟨_, _, _, hcond⟩
        rcases hcond with hcond | hcond
        · exact hne hcond
        · rw [hpos] at hcond
          cases hcond

/-- Claim C10: `NmrDueToMinStableCrhTime.score_notes` considers only notes
present in `currentLabels` (the inner join): a note no prior rule has
labeled receives neither a status update nor a bookkeeping extras row, even
when its stored timestamp is positive, so its timestamp is never cleared. -/
theorem claim_C10_stableCrhInnerJoin (thr now : Int) (noteStats : List NoteRow)
    (currentLabels : Labels) (n : Int)
    (h : n ∉ currentLabels.map (fun l => l.1)) :
    n ∉ ((NmrDueToMinStableCrhTime.score_notes thr now noteStats
      currentLabels).1).map (fun p => p.1) ∧
    n ∉ ((NmrDueToMinStableCrhTime.score_notes thr now noteStats
      currentLabels).2).map (fun p => p.1) := by
  constructor
  · intro hcontra
    rcases (stable_upd_mem_iff thr now _ _ _).mp hcontra with ⟨q, hqc, hqn, _⟩
    rcases mem_considered.mp hqc with ⟨_, _, hq2, _⟩
    exact h (List.mem_map.mpr ⟨(q.1.noteId, q.2), hq2, hqn⟩)
  · intro hcontra
    rcases (stable_bk_id_mem_iff thr now _ _ _).mp hcontra with ⟨q, hqc, hqn⟩
    rcases mem_considered.mp hqc with ⟨_, _, hq2, _⟩
    exact h (List.mem_map.mpr ⟨(q.1.noteId, q.2), hq2, hqn⟩)

/-- Claim C6: `ApplyGroupModelResult.score_notes` promotes to CRH exactly
the notes that are not blocked by the core/expansion reject predicate, have
group status CRH in this instance's modeling group, are currently labeled
NMR, and are actionable, where actionable takes the first non-missing of the
in-range booleans over the core and expansion intercepts (missing when the
respective intercept is missing); in particular a note with both intercepts
missing is never promoted and a note not currently NMR is never touched. -/
theorem claim_C6_applyGroupModelResult (g : Int)
    (coreCrhThreshold expansionCrhThreshold : Option Rat) (minSafeguard : Rat)
    (noteStats : List NoteRow) (currentLabels : Labels)
    (hns : (noteStats.map (fun r => r.noteId)).Nodup)
    (hcl : (currentLabels.map (fun l => l.1)).Nodup) :
    (∀ n st, (n, st) ∈ ApplyGroupModelResult.score_notes g coreCrhThreshold
        expansionCrhThreshold minSafeguard noteStats currentLabels ↔
      (st = Status.crh ∧ (n, Status.nmr) ∈ currentLabels ∧
        ∃ r ∈ noteStats, r.noteId = n ∧ blockedByCoreOrExpansion r = false ∧
          r.groupRatingStatus = some Status.crh ∧ r.modelingGroup = some g ∧
          ApplyGroupModelResult.get_value
            (ApplyGroupModelResult.boundsCheck minSafeguard coreCrhThreshold
              r.coreNoteIntercept)
            (ApplyGroupModelResult.boundsCheck minSafeguard expansionCrhThreshold
              r.expansionNoteIntercept) = true)) ∧
    (∀ r ∈ noteStats, r.coreNoteIntercept = none → r.expansionNoteIntercept = none →
      r.noteId ∉ (ApplyGroupModelResult.score_notes g coreCrhThreshold
        expansionCrhThreshold minSafeguard noteStats currentLabels).map
        (fun p => p.1)) ∧
    (∀ n st, (n, st) ∈ currentLabels → st ≠ Status.nmr →
      n ∉ (ApplyGroupModelResult.score_notes g coreCrhThreshold
        expansionCrhThreshold minSafeguard noteStats currentLabels).map
        (fun p => p.1)) := by
  have hmain : ∀ n st, (n, st) ∈ ApplyGroupModelResult.score_notes g coreCrhThreshold
      expansionCrhThreshold minSafeguard noteStats currentLabels ↔
      (st = Status.crh ∧ (n, Status.nmr) ∈ currentLabels ∧
        ∃ r ∈ noteStats, r.noteId = n ∧ blockedByCoreOrExpansion r = false ∧
          r.groupRatingStatus = some Status.crh ∧ r.modelingGroup = some g ∧
          ApplyGroupModelResult.get_value
            (ApplyGroupModelResult.boundsCheck minSafeguard coreCrhThreshold
              r.coreNoteIntercept)
            (ApplyGroupModelResult.boundsCheck minSafeguard expansionCrhThreshold
              r.expansionNoteIntercept) = true) := by
    intro n st
    constructor
    · intro h
      rcases List.mem_map.mp h with ⟨m, hm, hmn⟩
      simp only [Prod.mk.injEq] at hmn
      rcases hmn with ⟨rfl, rfl⟩
      rcases List.mem_filter.mp hm with ⟨hupd, hact⟩
      rcases List.mem_filter.mp hupd with ⟨hprob, hnmr⟩
      rcases List.mem_map.mp hprob with ⟨r, hrf, hrn⟩
      rcases List.mem_filter.mp hrf with ⟨hr1, hrcond⟩
      rcases List.mem_filter.mp hr1 with ⟨hrns, _⟩
      simp only [Bool.and_eq_true, decide_eq_true_iff] at hrcond
      have hblock : blockedByCoreOrExpansion r = false := by
        have := (List.mem_filter.mp hr1).2
        revert this
        cases blockedByCoreOrExpansion r <;> simp
      have hnmr' : m ∈ (currentLabels.filter
          (fun l => decide (l.2 = Status.nmr))).map (fun l => l.1) :=
        List.elem_iff.mp hnmr
      rcases List.mem_map.mp hnmr' with ⟨l, hl, hln⟩
      rcases List.mem_filter.mp hl with ⟨hlcl, hlnmr⟩
      simp only [decide_eq_true_iff] at hlnmr
      have hpair : (m, Status.nmr) = l := by
        rcases l with ⟨a, b⟩
        simp only at hln hlnmr
        rw [hln, hlnmr]
      have hact' : m ∈ ((noteStats.filter
          (fun r => !(blockedByCoreOrExpansion r))).filter (fun r =>
            ApplyGroupModelResult.get_value
              (ApplyGroupModelResult.boundsCheck minSafeguard coreCrhThreshold
                r.coreNoteIntercept)
              (ApplyGroupModelResult.boundsCheck minSafeguard expansionCrhThreshold
                r.expansionNoteIntercept))).map (fun r => r.noteId) :=
        List.elem_iff.mp hact
      rcases List.mem_map.mp hact' with ⟨r2, hr2f, hr2n⟩
      rcases List.mem_filter.mp hr2f with ⟨hr2b, hr2act⟩
      rcases List.mem_filter.mp hr2b with ⟨hr2ns, _⟩
      have hr2r : r2 = r :=
        List.inj_on_of_nodup_map hns hr2ns hrns (by rw [hr2n, hrn])
      subst hr2r
      exact ⟨rfl, by rw [hpair]; exact hlcl,
        r2, hr2ns, hrn, hblock, hrcond.1, hrcond.2, hr2act⟩
    · rintro ⟨rfl, hnmrcl, r, hrns, rfl, hblock, hgroup, hmodel, hact⟩
      have hr1 : r ∈ noteStats.filter (fun r => !(blockedByCoreOrExpansion r)) :=
        List.mem_filter.mpr ⟨hrns, by rw [hblock]; rfl⟩
      have hprob : r.noteId ∈ ((noteStats.filter
          (fun r => !(blockedByCoreOrExpansion r))).filter (fun r =>
            decide (r.groupRatingStatus = some Status.crh) &&
              decide (r.modelingGroup = some g))).map (fun r => r.noteId) :=
        List.mem_map.mpr ⟨r, List.mem_filter.mpr ⟨hr1, by simp [hgroup, hmodel]⟩, rfl⟩
      have hnmrid : r.noteId ∈ (currentLabels.filter
          (fun l => decide (l.2 = Status.nmr))).map (fun l => l.1) :=
        List.mem_map.mpr ⟨(r.noteId, Status.nmr),
          List.mem_filter.mpr ⟨hnmrcl, by simp⟩, rfl⟩
      have hactid : r.noteId ∈ ((noteStats.filter
          (fun r => !(blockedByCoreOrExpansion r))).filter (fun r =>
            ApplyGroupModelResult.get_value
              (ApplyGroupModelResult.boundsCheck minSafeguard coreCrhThreshold
                r.coreNoteIntercept)
              (ApplyGroupModelResult.boundsCheck minSafeguard expansionCrhThreshold
                r.expansionNoteIntercept))).map (fun r => r.noteId) :=
        List.mem_map.mpr ⟨r, List.mem_filter.mpr ⟨hr1, hact⟩, rfl⟩
      refine List.mem_map.mpr ⟨r.noteId, ?_, rfl⟩
      refine List.mem_filter.mpr ⟨List.mem_filter.mpr ⟨hprob, ?_⟩, ?_⟩
      · exact List.elem_iff.mpr hnmrid
      · exact List.elem_iff.mpr hactid
  refine ⟨hmain, ?_, ?_⟩
  · intro r hr hcore hexp hcontra
    rcases List.mem_map.mp hcontra with ⟨p, hp, hpn⟩
    rcases p with ⟨pn, pst⟩
    simp only at hpn
    subst hpn
    rcases (hmain _ _).mp hp with ⟨_, _, r2, hr2ns, hr2n, _, _, _, hact⟩
    have : r2 = r := List.inj_on_of_nodup_map hns hr2ns hr hr2n
    subst this
    rw [hcore, hexp] at hact
    simp [ApplyGroupModelResult.boundsCheck, ApplyGroupModelResult.get_value] at hact
  · intro n st hcl' hne hcontra
    rcases List.mem_map.mp hcontra with ⟨p, hp, hpn⟩
    rcases p with ⟨pn, pst⟩
    simp only at hpn
    subst hpn
    rcases (hmain _ _).mp hp with ⟨_, hnmrcl, _⟩
    exact hne (keyed_unique hcl hcl' hnmrcl)

/-- Claim C4 (amended): `ApplyModelResult.score_notes` with `checkFirmReject`
set and no filter pairs excludes a note from its updates exactly when the
source column is missing or would assign CRH while the core/expansion reject
predicate blocks the note; every remaining note with a non-missing source
status receives that status with FIRM_REJECT rewritten to NMR, and every
emitted status is CRH, CRNH or NMR.  (The rewriting and the three-status
assertion live in this rule, not in the `apply_scoring_rules` driver.) -/
theorem claim_C4_applyModelResult (sourceColumn : NoteRow → Option Status)
    (noteStats : List NoteRow)
    (hns : (noteStats.map (fun r => r.noteId)).Nodup) :
    ∃ u, ApplyModelResult.score_notes sourceColumn true [] noteStats = .ok u ∧
      (∀ r ∈ noteStats, (r.noteId ∉ u.map (fun p => p.1) ↔
        (sourceColumn r = none ∨
          (sourceColumn r = some Status.crh ∧
            blockedByCoreOrExpansion r = true)))) ∧
      (∀ r ∈ noteStats, ∀ s, sourceColumn r = some s →
        ¬(blockedByCoreOrExpansion r = true ∧ s = Status.crh) →
        (r.noteId, if s = Status.firmReject then Status.nmr else s) ∈ u) ∧
      (∀ p ∈ u, p.2 = Status.crh ∨ p.2 = Status.crnh ∨ p.2 = Status.nmr) := by
  refine ⟨(noteStats.filter (fun r => !(blockedByCoreOrExpansion r &&
      decide (sourceColumn r = some Status.crh)))).filterMap (fun r =>
        (sourceColumn r).map (fun s =>
          (r.noteId, if s = Status.firmReject then Status.nmr else s))), ?_, ?_, ?_, ?_⟩
  · show (if ((noteStats.filter (fun r => !(blockedByCoreOrExpansion r &&
        decide (sourceColumn r = some Status.crh)))).filterMap (fun r =>
          (sourceColumn r).map (fun s =>
            (r.noteId, if s = Status.firmReject then Status.nmr else s)))).all
        (fun u => decide (u.2 = Status.crh) || decide (u.2 = Status.crnh) ||
          decide (u.2 = Status.nmr)) = true then _ else _) = _
    rw [if_pos]
    · rfl
    · refine List.all_eq_true.mpr (fun p hp => ?_)
      rcases List.mem_filterMap.mp hp with ⟨r, _, hmap⟩
      rcases Option.map_eq_some'.mp hmap with ⟨s, _, hps⟩
      rw [← hps]
      cases s <;> simp
  · intro r hr
    constructor
    · intro hnot
      by_contra hcond
      push_neg at hcond
      rcases hcond with ⟨hne, hncrh⟩
      rcases hsc : sourceColumn r with _ | s
      · exact hne hsc
      · have hkeep : (!(blockedByCoreOrExpansion r &&
            decide (sourceColumn r = some Status.crh))) = true := by
          by_cases hcrh : s = Status.crh
          · subst hcrh
            have hbf : blockedByCoreOrExpansion r = false := by
              rcases hb : blockedByCoreOrExpansion r with _ | _
              · rfl
              · exact absurd hb (fun hbb => hncrh hsc hbb)
            simp [hbf]
          · have : sourceColumn r ≠ some Status.crh := by
              rw [hsc]
              intro hcc
              exact hcrh (Option.some.inj hcc)
            simp [this]
        exact hnot (List.mem_map.mpr ⟨(r.noteId,
          if s = Status.firmReject then Status.nmr else s),
          List.mem_filterMap.mpr ⟨r, List.mem_filter.mpr ⟨hr, hkeep⟩,
            by rw [hsc]; rfl⟩, rfl⟩)
    · intro hcond hmem
      rcases List.mem_map.mp hmem with ⟨p, hp, hpn⟩
      rcases List.mem_filterMap.mp hp with ⟨r2, hr2f, hmap⟩
      rcases List.mem_filter.mp hr2f with ⟨hr2ns, hr2keep⟩
      rcases Option.map_eq_some'.mp hmap with ⟨s2, hs2, hps⟩
      have hid : r2.noteId = r.noteId := by
        rw [← hps] at hpn
        exact hpn
      have hr2r : r2 = r := List.inj_on_of_nodup_map hns hr2ns hr hid
      subst hr2r
      rcases hcond with hnone | ⟨hcrh, hblock⟩
      · rw [hnone] at hs2; cases hs2
      · rw [hcrh] at hs2
        have hs2' : s2 = Status.crh := (Option.some.inj hs2).symm
        subst hs2'
        rw [hblock, hcrh] at hr2keep
        simp at hr2keep
  · intro r hr s hsc hcond
    have hkeep : (!(blockedByCoreOrExpansion r &&
        decide (sourceColumn r = some Status.crh))) = true := by
      by_cases hb : blockedByCoreOrExpansion r = true
      · have hscrh : s ≠ Status.crh := fun hc => hcond ⟨hb, hc⟩
        have : sourceColumn r ≠ some Status.crh := by
          rw [hsc]
          intro hcc
          exact hscrh (Option.some.inj hcc)
        simp [this]
      · have hbf : blockedByCoreOrExpansion r = false := by
          rcases hx : blockedByCoreOrExpansion r with _ | _
          · rfl
          · exact absurd hx hb
        simp [hbf]
    exact List.mem_filterMap.mpr ⟨r, List.mem_filter.mpr ⟨hr, hkeep⟩,
      by rw [hsc]; rfl⟩
  · intro p hp
    rcases List.mem_filterMap.mp hp with ⟨r, _, hmap⟩
    rcases Option.map_eq_some'.mp hmap with ⟨s, _, hps⟩
    rw [← hps]
    cases s <;> simp

/-- Equality of every `NoteRow` column other than `firstTag` and
`secondTag`. -/
def sameExceptTags (a b : NoteRow) : Prop :=
  b.noteId = a.noteId ∧
  b.internalNoteIntercept = a.internalNoteIntercept ∧
  b.coreNoteIntercept = a.coreNoteIntercept ∧
  b.coreRatingStatus = a.coreRatingStatus ∧
  b.expansionNoteIntercept = a.expansionNoteIntercept ∧
  b.expansionRatingStatus = a.expansionRatingStatus ∧
  b.groupRatingStatus = a.groupRatingStatus ∧
  b.modelingGroup = a.modelingGroup ∧
  b.currentLabel = a.currentLabel ∧
  b.timestampMillisOfNmrDueToMinStableCrhTime =
    a.timestampMillisOfNmrDueToMinStableCrhTime ∧
  b.tagCounts = a.tagCounts

theorem sameExceptTags_refl (a : NoteRow) : sameExceptTags a a :=
  ⟨rfl, rfl, rfl, rfl, rfl, rfl, rfl, rfl, rfl, rfl, rfl⟩

theorem sameExceptTags_setTopTags {a b : NoteRow} (h : sameExceptTags a b)
    (p : Int × Option String × Option String) :
    sameExceptTags a (setTopTags b p) := h

theorem sameExceptTags_writeTopTags
    (tt : List (Int × Option String × Option String)) {a b : NoteRow}
    (h : sameExceptTags a b) : sameExceptTags a (writeTopTags tt b) := by
  unfold writeTopTags
  cases tt.find? (fun p => p.1 == b.noteId) with
  | none => exact h
  | some p => exact sameExceptTags_setTopTags h p

theorem forall₂_writeTopTags (ns : List NoteRow)
    (tt : List (Int × Option String × Option String)) {ms : List NoteRow}
    (h : List.Forall₂ sameExceptTags ns ms) :
    List.Forall₂ sameExceptTags ns (ms.map (writeTopTags tt)) :=
  List.forall₂_map_right_iff.mpr
    (h.imp (fun _ _ hab => sameExceptTags_writeTopTags tt hab))

/-- Claim C7 (amended): `InsufficientExplanation.score_notes` mutates only
the `firstTag` and `secondTag` columns of the `noteStats` table passed to it
(in place, as its docstring states): the post-call table has the same rows
in the same order, each agreeing with its original row on every other
column; `currentLabels` and the tables of every other embedded rule are
returned untouched by construction. -/
theorem claim_C7_insufficientExplanationFrame (status : Status)
    (minRatingsToGetTag minTagsNeededForStatus : Nat)
    (tagsConsidered : Option (List String))
    (helpfulTagsTiebreakOrder notHelpfulTagsTiebreakOrder : List String)
    (noteStats : List NoteRow) (currentLabels : Labels) :
    List.Forall₂ sameExceptTags noteStats
      (InsufficientExplanation.score_notes status minRatingsToGetTag
        minTagsNeededForStatus tagsConsidered helpfulTagsTiebreakOrder
        notHelpfulTagsTiebreakOrder noteStats currentLabels).2 := by
  rcases tagsConsidered with _ | tags
  · exact forall₂_writeTopTags noteStats _
      (forall₂_writeTopTags noteStats _
        (List.forall₂_same.mpr (fun x _ => sameExceptTags_refl x)))
  · show List.Forall₂ sameExceptTags noteStats
      (noteStats.zipWith setTopTags
        (get_top_two_tags_for_note noteStats minRatingsToGetTag
          minTagsNeededForStatus tags))
    rw [get_top_two_tags_for_note, List.zipWith_map_right, List.zipWith_same]
    exact List.forall₂_map_right_iff.mpr
      (List.forall₂_same.mpr
        (fun x _ => sameExceptTags_setTopTags (sameExceptTags_refl x) _))

/-- Claim C8: `check_dependencies` fails exactly when some declared
dependency is missing from the prior-rule set, and a completed
`apply_scoring_rules` run satisfies that no rule identifier repeats and that
every rule's declared dependencies are among the identifiers of the rules
that ran strictly earlier. -/
theorem claim_C8_dependencyDiscipline (noteStats : List NoteRow)
    (rules : List Rule) (req : Bool) (out : List ScoredNote)
    (hok : apply_scoring_rules noteStats rules req = .ok out) :
    (∀ (deps priorRules : List RuleID),
      check_dependencies deps priorRules = false ↔ ∃ d ∈ deps, d ∉ priorRules) ∧
    (rules.map (fun r => r.ruleId)).Nodup ∧
    (∀ i (hi : i < rules.length), ∀ d ∈ (rules.get ⟨i, hi⟩).dependencies,
      d ∈ (rules.take i).map (fun r => r.ruleId)) := by
  obtain ⟨st, trace, hrun, _⟩ := apply_scoring_rules_ok_elim hok
  have hchecks := runRules_checks hrun
  refine ⟨?_, ?_, ?_⟩
  · intro deps priorRules
    rw [check_dependencies, List.all_eq_false]
    simp
  · refine List.pairwise_iff_get.mpr (fun i j hij heq => ?_)
    have hjlen : (j : Nat) < rules.length := by
      have := j.isLt
      simpa using this
    have hilen : (i : Nat) < rules.length := by
      have := i.isLt
      simpa using this
    have hnot := (hchecks j hjlen).2
    simp only [List.nil_append] at hnot
    refine hnot ?_
    have hgi : (rules.map (fun r => r.ruleId)).get i = rules[(i : Nat)].ruleId := by
      rw [List.get_eq_getElem, List.getElem_map]
    have hgj : (rules.map (fun r => r.ruleId)).get j = rules[(j : Nat)].ruleId := by
      rw [List.get_eq_getElem, List.getElem_map]
    have heq2 : rules[(i : Nat)].ruleId = rules[(j : Nat)].ruleId := by
      rw [← hgi, ← hgj, heq]
    have hmemtake : rules[(i : Nat)] ∈ rules.take (j : Nat) := by
      have hlt : (i : Nat) < (rules.take (j : Nat)).length := by
        simp only [List.length_take]
        exact Nat.lt_min.mpr ⟨hij, hilen⟩
      have hgt : (rules.take (j : Nat))[(i : Nat)] = rules[(i : Nat)] :=
        List.getElem_take rules
      rw [← hgt]
      exact List.getElem_mem hlt
    have : rules[(j : Nat)].ruleId ∈ (rules.take (j : Nat)).map
        (fun r => r.ruleId) :=
      List.mem_map.mpr ⟨rules[(i : Nat)], hmemtake, heq2⟩
    simpa using this
  · intro i hi d hd
    have := (hchecks i hi).1
    simp only [List.nil_append] at this
    rw [check_dependencies, List.all_eq_true] at this
    have := this d hd
    simpa using this

/-- Claim C9: if two rules in one engine run both contribute an extras
column with the same non-key name, the run fails: equivalently, in every
completed rule loop the extras column sets contributed by distinct rules are
pairwise disjoint, so the engine never merges or overwrites a shared
column. -/
theorem claim_C9_extrasColumnCollision (noteStats : List NoteRow)
    (rules : List Rule) (st : EngineState) (trace : List RuleOutput)
    (hrun : runRules rules ⟨noteStats, [], [], ExtrasTable.empty, []⟩ [] =
      .ok (st, trace)) :
    trace.Pairwise (fun e1 e2 => ∀ c1 c2, e1.extrasCols = some c1 →
      e2.extrasCols = some c2 → ∀ s ∈ c1, s ∉ c2) := by
  refine runRules_extras_disjoint hrun ?_ ?_
  · intro e he
    simp at he
  · exact List.Pairwise.nil

/-- Claim C3: a completed `apply_scoring_rules` run returns a table whose
`NoteId` set equals the `NoteId` set of the input `noteStats` (the frame
hypothesis records that the rules of the run left the key column of the
threaded `noteStats` table unchanged, true of every embedded rule), and
every returned note carries a non-empty rule attribution. -/
theorem claim_C3_coverage (noteStats : List NoteRow) (rules : List Rule)
    (req : Bool) (out : List ScoredNote) (st : EngineState)
    (trace : List RuleOutput)
    (hok : apply_scoring_rules noteStats rules req = .ok out)
    (hrun : runRules rules ⟨noteStats, [], [], ExtrasTable.empty, []⟩ [] =
      .ok (st, trace))
    (hframe : st.noteStats.map (fun r => r.noteId) =
      noteStats.map (fun r => r.noteId)) :
    (∀ n, n ∈ out.map (fun sc => sc.row.noteId) ↔
      n ∈ noteStats.map (fun r => r.noteId)) ∧
    (∀ sc ∈ out, sc.ruleList ≠ []) := by
  obtain ⟨st2, trace2, hrun2, hfin⟩ := apply_scoring_rules_ok_elim hok
  have heq := hrun.symm.trans hrun2
  simp only [Except.ok.injEq, Prod.mk.injEq] at heq
  rcases heq with ⟨rfl, rfl⟩
  obtain ⟨hfwd, hcov⟩ := finalizeScoring_ok_spec hfin
  constructor
  · intro n
    constructor
    · intro hmem
      rcases List.mem_map.mp hmem with ⟨sc, hsc, hscn⟩
      rw [← hframe]
      exact List.mem_map.mpr ⟨sc.row, (hfwd sc hsc).1, hscn⟩
    · intro hmem
      rw [← hframe] at hmem
      rcases List.mem_map.mp hmem with ⟨r, hr, hrn⟩
      rcases hcov r hr with ⟨sc, hsc, hscr⟩
      exact List.mem_map.mpr ⟨sc, hsc, by rw [hscr, hrn]⟩
  · intro sc hsc
    exact ((hfwd sc hsc).2.2.2.1)

/-- Claim C2: in a completed run, for every output note the final status is
the status emitted by the last rule (in list order) that emitted the note,
the attribution list is exactly the display names of the rules that emitted
it in rule order joined by commas, and when the decided-by column is
requested it holds the display name of that last acting rule. -/
theorem claim_C2_lastWriterWins (noteStats : List NoteRow) (rules : List Rule)
    (req : Bool) (out : List ScoredNote) (st : EngineState)
    (trace : List RuleOutput)
    (hok : apply_scoring_rules noteStats rules req = .ok out)
    (hrun : runRules rules ⟨noteStats, [], [], ExtrasTable.empty, []⟩ [] =
      .ok (st, trace))
    (hupd : ∀ e ∈ trace, (e.updates.map (fun p => p.1)).Nodup) :
    ∀ sc ∈ out,
      (trace.filter (fun e => e.updates.any
        (fun p => decide (p.1 = sc.row.noteId)))) ≠ [] ∧
      (∃ e, (trace.filter (fun e => e.updates.any
          (fun p => decide (p.1 = sc.row.noteId)))).getLast? = some e ∧
        labelOf e.updates sc.row.noteId = some sc.status) ∧
      sc.ruleList = (trace.filter (fun e => e.updates.any
        (fun p => decide (p.1 = sc.row.noteId)))).map (fun e => e.ruleName) ∧
      sc.activeRules = String.intercalate "," sc.ruleList ∧
      (req = true → sc.decidedBy = sc.ruleList.getLast?) := by
  obtain ⟨st2, trace2, hrun2, hfin⟩ := apply_scoring_rules_ok_elim hok
  have heq := hrun.symm.trans hrun2
  simp only [Except.ok.injEq, Prod.mk.injEq] at heq
  rcases heq with ⟨rfl, rfl⟩
  obtain ⟨tr2, htr2, _, _, _, hrules, _, hlab⟩ := runRules_state hrun
  rw [List.nil_append] at htr2
  subst htr2
  obtain ⟨hfwd, _⟩ := finalizeScoring_ok_spec hfin
  intro sc hsc
  obtain ⟨_, hlabsc, hrl, hne, hact, hdec, _, _, _⟩ := hfwd sc hsc
  simp only [List.nil_append] at hrules
  have hrl2 : sc.ruleList = (trace.filter (fun e => e.updates.any
      (fun p => decide (p.1 = sc.row.noteId)))).map (fun e => e.ruleName) := by
    rw [hrl, hrules]
    exact trace_ruleNames trace sc.row.noteId hupd
  have hflat : labelOf (trace.flatMap (fun e => e.updates)) sc.row.noteId =
      some sc.status := by
    have := hlab sc.row.noteId
    rw [hlabsc, labelOf_nil, Option.or_none] at this
    exact this.symm
  rw [trace_labelOf] at hflat
  rcases Option.bind_eq_some.mp hflat with ⟨e, he, hfe⟩
  refine ⟨?_, ⟨e, he, hfe⟩, hrl2, hact, ?_⟩
  · intro hnil
    rw [hrl2, hnil] at hne
    simp at hne
  · intro hreq
    rw [hdec, if_pos hreq]

/-- Claim C1 (amended): `apply_scoring_rules` performs no
`FIRM_REJECT → NMR` rewriting of its own: each output status is exactly the
status carried by the last update any rule emitted for the note, so
`FIRM_REJECT` reaches the output whenever the last acting rule emitted it,
and the `{CRH, CRNH, NMR}` containment holds only for rules lists whose
final per-note emissions avoid `FIRM_REJECT` (in the production pipeline the
`ApplyModelResult` propagation rules rewrite it before emitting). -/
theorem claim_C1_statusPassThrough (noteStats : List NoteRow)
    (rules : List Rule) (req : Bool) (out : List ScoredNote)
    (st : EngineState) (trace : List RuleOutput)
    (hok : apply_scoring_rules noteStats rules req = .ok out)
    (hrun : runRules rules ⟨noteStats, [], [], ExtrasTable.empty, []⟩ [] =
      .ok (st, trace)) :
    ∀ sc ∈ out, ∃ e,
      (trace.filter (fun e => e.updates.any
        (fun p => decide (p.1 = sc.row.noteId)))).getLast? = some e ∧
      labelOf e.updates sc.row.noteId = some sc.status := by
  obtain ⟨st2, trace2, hrun2, hfin⟩ := apply_scoring_rules_ok_elim hok
  have heq := hrun.symm.trans hrun2
  simp only [Except.ok.injEq, Prod.mk.injEq] at heq
  rcases heq with ⟨rfl, rfl⟩
  obtain ⟨tr2, htr2, _, _, _, _, _, hlab⟩ := runRules_state hrun
  rw [List.nil_append] at htr2
  subst htr2
  obtain ⟨hfwd, _⟩ := finalizeScoring_ok_spec hfin
  intro sc hsc
  obtain ⟨_, hlabsc, _, _, _, _, _, _, _⟩ := hfwd sc hsc
  have hflat : labelOf (trace.flatMap (fun e => e.updates)) sc.row.noteId =
      some sc.status := by
    have := hlab sc.row.noteId
    rw [hlabsc, labelOf_nil, Option.or_none] at this
    exact this.symm
  rw [trace_labelOf] at hflat
  rcases Option.bind_eq_some.mp hflat with ⟨e, he, hfe⟩
  exact ⟨e, he, hfe⟩

/-! Concrete fixtures for the counterexamples and for the witnesses of the
theorems above.  Thresholds are integral rationals so that every run is
kernel-computable. -/

def wNote1 : NoteRow := { noteId := 1 }

def wRulesTwoDefaults : List Rule :=
  [DefaultRule.rule RuleID.INITIAL_NMR [] Status.nmr,
   DefaultRule.rule RuleID.META_INITIAL_NMR [RuleID.INITIAL_NMR] Status.crh]

def wOut2 : List ScoredNote :=
  okOr [] (apply_scoring_rules [wNote1] wRulesTwoDefaults true)

def wRunPair : EngineState × List RuleOutput :=
  okOr (⟨[], [], [], ExtrasTable.empty, []⟩, [])
    (runRules wRulesTwoDefaults ⟨[wNote1], [], [], ExtrasTable.empty, []⟩ [])

def cexC1Stats : List NoteRow := [{ noteId := 1, internalNoteIntercept := some (-1) }]

def cexC1Rules : List Rule :=
  [DefaultRule.rule RuleID.INITIAL_NMR [] Status.nmr,
   RejectLowIntercept.rule RuleID.LOW_INTERCEPT [RuleID.INITIAL_NMR]
     Status.firmReject 0]

def cexC4Stats : List NoteRow := [{ noteId := 5, internalNoteIntercept := some (-1) }]

def cexC4Rules : List Rule :=
  [DefaultRule.rule RuleID.INITIAL_NMR [] Status.nmr,
   ApplyModelResult.rule RuleID.CORE_MODEL [RuleID.INITIAL_NMR]
     (fun r => r.groupRatingStatus) true [],
   RejectLowIntercept.rule RuleID.LOW_INTERCEPT [RuleID.INITIAL_NMR]
     Status.firmReject 0]

def c4wRow : NoteRow := { noteId := 7, coreRatingStatus := some Status.firmReject }

def c7wRow : NoteRow := { noteId := 30, tagCounts := [("tagA", 5)] }

def w5a : NoteRow := { noteId := 10, currentLabel := some Status.nmr }

def w5b : NoteRow :=
  { noteId := 11, currentLabel := some Status.nmr,
    timestampMillisOfNmrDueToMinStableCrhTime := some 1000000 }

def w5cl : Labels := [(10, Status.crh), (11, Status.crh)]

def w6row : NoteRow :=
  { noteId := 20, groupRatingStatus := some Status.crh, modelingGroup := some 4,
    expansionNoteIntercept := some 1 }

def w6cl : Labels := [(20, Status.nmr)]

def w10row : NoteRow :=
  { noteId := 10, timestampMillisOfNmrDueToMinStableCrhTime := some 5 }

/-- Claim C1 counterexample: a completed `apply_scoring_rules` run whose
output status column carries `FIRM_REJECT`: with `RejectLowIntercept` the
last rule to act on the note and no later rule overwriting it, the engine
returns `FIRM_REJECT` unrewritten, refuting the claim that every returned
status is CRH, CRNH or NMR. -/
theorem claim_C1_counterexample :
    outputStatuses (apply_scoring_rules cexC1Stats cexC1Rules true) =
      [Status.firmReject] := by decide

/-- Claim C4 counterexample for its §4.17 conjunct: the FIRM_REJECT → NMR
rewriting and the three-status assertion are not enforced by the
`apply_scoring_rules` driver — a run containing an `ApplyModelResult` rule
still returns `FIRM_REJECT` when `RejectLowIntercept` acts last, while
`ApplyModelResult.score_notes` itself rewrites a FIRM_REJECT source status
to NMR; the rewriting lives in the rule, not at the driver boundary. -/
theorem claim_C4_counterexample :
    outputStatuses (apply_scoring_rules cexC4Stats cexC4Rules true) =
      [Status.firmReject] ∧
    ApplyModelResult.score_notes (fun r => r.coreRatingStatus) true [] [c4wRow] =
      .ok [(7, Status.nmr)] :=
  ⟨by decide, rfl⟩

/-- Claim C7 counterexample: `InsufficientExplanation.score_notes` modifies
the `noteStats` table passed to it: with one currently-CRH note whose tag
counts assign it a top tag, the post-call table differs from the input (the
`firstTag` cell has been filled in place). -/
theorem claim_C7_counterexample :
    (InsufficientExplanation.score_notes Status.nmr 1 2 none ["tagA"] []
      [c7wRow] [(30, Status.crh)]).2 ≠ [c7wRow] := by decide

/-- Witness for `claim_C1_statusPassThrough` at a concrete two-rule run. -/
theorem claim_C1_statusPassThrough_witness :
    apply_scoring_rules [wNote1] wRulesTwoDefaults true = .ok wOut2 ∧
    runRules wRulesTwoDefaults ⟨[wNote1], [], [], ExtrasTable.empty, []⟩ [] =
      .ok (wRunPair.1, wRunPair.2) ∧
    (∀ sc ∈ wOut2, ∃ e,
      (wRunPair.2.filter (fun e => e.updates.any
        (fun p => decide (p.1 = sc.row.noteId)))).getLast? = some e ∧
      labelOf e.updates sc.row.noteId = some sc.status) :=
  ⟨rfl, rfl, claim_C1_statusPassThrough [wNote1] wRulesTwoDefaults true wOut2
    wRunPair.1 wRunPair.2 rfl rfl⟩

/-- Witness for `claim_C2_lastWriterWins` at a concrete two-rule run. -/
theorem claim_C2_lastWriterWins_witness :
    apply_scoring_rules [wNote1] wRulesTwoDefaults true = .ok wOut2 ∧
    runRules wRulesTwoDefaults ⟨[wNote1], [], [], ExtrasTable.empty, []⟩ [] =
      .ok (wRunPair.1, wRunPair.2) ∧
    (∀ e ∈ wRunPair.2, (e.updates.map (fun p => p.1)).Nodup) ∧
    (∀ sc ∈ wOut2,
      (wRunPair.2.filter (fun e => e.updates.any
        (fun p => decide (p.1 = sc.row.noteId)))) ≠ [] ∧
      (∃ e, (wRunPair.2.filter (fun e => e.updates.any
          (fun p => decide (p.1 = sc.row.noteId)))).getLast? = some e ∧
        labelOf e.updates sc.row.noteId = some sc.status) ∧
      sc.ruleList = (wRunPair.2.filter (fun e => e.updates.any
        (fun p => decide (p.1 = sc.row.noteId)))).map (fun e => e.ruleName) ∧
      sc.activeRules = String.intercalate "," sc.ruleList ∧
      (true = true → sc.decidedBy = sc.ruleList.getLast?)) :=
  ⟨rfl, rfl, by decide, claim_C2_lastWriterWins [wNote1] wRulesTwoDefaults true
    wOut2 wRunPair.1 wRunPair.2 rfl rfl (by decide)⟩

/-- Witness for `claim_C3_coverage` at a concrete two-rule run. -/
theorem claim_C3_coverage_witness :
    apply_scoring_rules [wNote1] wRulesTwoDefaults true = .ok wOut2 ∧
    runRules wRulesTwoDefaults ⟨[wNote1], [], [], ExtrasTable.empty, []⟩ [] =
      .ok (wRunPair.1, wRunPair.2) ∧
    wRunPair.1.noteStats.map (fun r => r.noteId) =
      [wNote1].map (fun r => r.noteId) ∧
    ((∀ n, n ∈ wOut2.map (fun sc => sc.row.noteId) ↔
      n ∈ [wNote1].map (fun r => r.noteId)) ∧
    (∀ sc ∈ wOut2, sc.ruleList ≠ [])) :=
  ⟨rfl, rfl, by decide, claim_C3_coverage [wNote1] wRulesTwoDefaults true wOut2
    wRunPair.1 wRunPair.2 rfl rfl (by decide)⟩

/-- Witness for `claim_C4_applyModelResult` at a one-note table whose core
status is FIRM_REJECT. -/
theorem claim_C4_applyModelResult_witness :
    (([c4wRow].map (fun r => r.noteId)).Nodup) ∧
    (∃ u, ApplyModelResult.score_notes (fun r => r.coreRatingStatus) true []
        [c4wRow] = .ok u ∧
      (∀ r ∈ [c4wRow], (r.noteId ∉ u.map (fun p => p.1) ↔
        ((fun (r : NoteRow) => r.coreRatingStatus) r = none ∨
          ((fun (r : NoteRow) => r.coreRatingStatus) r = some Status.crh ∧
            blockedByCoreOrExpansion r = true)))) ∧
      (∀ r ∈ [c4wRow], ∀ s,
        (fun (r : NoteRow) => r.coreRatingStatus) r = some s →
        ¬(blockedByCoreOrExpansion r = true ∧ s = Status.crh) →
        (r.noteId, if s = Status.firmReject then Status.nmr else s) ∈ u) ∧
      (∀ p ∈ u, p.2 = Status.crh ∨ p.2 = Status.crnh ∨ p.2 = Status.nmr)) :=
  ⟨by decide, claim_C4_applyModelResult (fun r => r.coreRatingStatus) [c4wRow]
    (by decide)⟩

/-- Witness for `claim_C5_stableCrhTable` at a two-note table with one
first-observation note and one matured note. -/
theorem claim_C5_stableCrhTable_witness :
    (([w5a, w5b].map (fun r => r.noteId)).Nodup) ∧
    ((w5cl.map (fun l => l.1)).Nodup) ∧
    ((∀ p ∈ (NmrDueToMinStableCrhTime.score_notes 30 2800000 [w5a, w5b] w5cl).1,
      p.2 = Status.nmr) ∧
    ∀ r ∈ [w5a, w5b], ∀ s, (r.noteId, s) ∈ w5cl →
      r.currentLabel ≠ some Status.crh →
      ((s = Status.crh →
          (r.timestampMillisOfNmrDueToMinStableCrhTime = none ∨
            (∃ t, r.timestampMillisOfNmrDueToMinStableCrhTime = some t ∧ t ≤ 0)) →
          (r.noteId, Status.nmr) ∈
            (NmrDueToMinStableCrhTime.score_notes 30 2800000 [w5a, w5b] w5cl).1 ∧
          (r.noteId, some 2800000) ∈
            (NmrDueToMinStableCrhTime.score_notes 30 2800000 [w5a, w5b] w5cl).2) ∧
       (∀ t, s = Status.crh →
          r.timestampMillisOfNmrDueToMinStableCrhTime = some t → 0 < t →
          30 * 60 * 1000 ≤ 2800000 - t →
          r.noteId ∉ ((NmrDueToMinStableCrhTime.score_notes 30 2800000 [w5a, w5b]
            w5cl).1).map (fun p => p.1) ∧
          (r.noteId, some (-1)) ∈
            (NmrDueToMinStableCrhTime.score_notes 30 2800000 [w5a, w5b] w5cl).2) ∧
       (∀ t, s = Status.crh →
          r.timestampMillisOfNmrDueToMinStableCrhTime = some t → 0 < t →
          2800000 - t < 30 * 60 * 1000 →
          (r.noteId, Status.nmr) ∈
            (NmrDueToMinStableCrhTime.score_notes 30 2800000 [w5a, w5b] w5cl).1 ∧
          (r.noteId, some t) ∈
            (NmrDueToMinStableCrhTime.score_notes 30 2800000 [w5a, w5b] w5cl).2) ∧
       (∀ t, s ≠ Status.crh →
          r.timestampMillisOfNmrDueToMinStableCrhTime = some t → 0 < t →
          r.noteId ∉ ((NmrDueToMinStableCrhTime.score_notes 30 2800000 [w5a, w5b]
            w5cl).1).map (fun p => p.1) ∧
          (r.noteId, some (-1)) ∈
            (NmrDueToMinStableCrhTime.score_notes 30 2800000 [w5a, w5b] w5cl).2) ∧
       (s ≠ Status.crh → timestampPositive r = false →
          r.noteId ∉ ((NmrDueToMinStableCrhTime.score_notes 30 2800000 [w5a, w5b]
            w5cl).1).map (fun p => p.1) ∧
          r.noteId ∉ ((NmrDueToMinStableCrhTime.score_notes 30 2800000 [w5a, w5b]
            w5cl).2).map (fun p => p.1)))) :=
  ⟨by decide, by decide,
    claim_C5_stableCrhTable 30 2800000 [w5a, w5b] w5cl (by decide) (by decide)⟩

/-- Witness for `claim_C6_applyGroupModelResult` at a one-note table
promoted through the expansion intercept. -/
theorem claim_C6_applyGroupModelResult_witness :
    (([w6row].map (fun r => r.noteId)).Nodup) ∧
    ((w6cl.map (fun l => l.1)).Nodup) ∧
    ((∀ n st, (n, st) ∈ ApplyGroupModelResult.score_notes 4 (some 2) none 0
        [w6row] w6cl ↔
      (st = Status.crh ∧ (n, Status.nmr) ∈ w6cl ∧
        ∃ r ∈ [w6row], r.noteId = n ∧ blockedByCoreOrExpansion r = false ∧
          r.groupRatingStatus = some Status.crh ∧ r.modelingGroup = some 4 ∧
          ApplyGroupModelResult.get_value
            (ApplyGroupModelResult.boundsCheck 0 (some 2) r.coreNoteIntercept)
            (ApplyGroupModelResult.boundsCheck 0 none r.expansionNoteIntercept) =
              true)) ∧
    (∀ r ∈ [w6row], r.coreNoteIntercept = none → r.expansionNoteIntercept = none →
      r.noteId ∉ (ApplyGroupModelResult.score_notes 4 (some 2) none 0
        [w6row] w6cl).map (fun p => p.1)) ∧
    (∀ n st, (n, st) ∈ w6cl → st ≠ Status.nmr →
      n ∉ (ApplyGroupModelResult.score_notes 4 (some 2) none 0
        [w6row] w6cl).map (fun p => p.1))) :=
  ⟨by decide, by decide, claim_C6_applyGroupModelResult 4 (some 2) none 0
    [w6row] w6cl (by decide) (by decide)⟩

/-- Witness for `claim_C8_dependencyDiscipline` at a concrete two-rule run
where the second rule depends on the first. -/
theorem claim_C8_dependencyDiscipline_witness :
    apply_scoring_rules [wNote1] wRulesTwoDefaults true = .ok wOut2 ∧
    ((∀ (deps priorRules : List RuleID),
      check_dependencies deps priorRules = false ↔ ∃ d ∈ deps, d ∉ priorRules) ∧
    (wRulesTwoDefaults.map (fun r => r.ruleId)).Nodup ∧
    (∀ i (hi : i < wRulesTwoDefaults.length),
      ∀ d ∈ (wRulesTwoDefaults.get ⟨i, hi⟩).dependencies,
      d ∈ (wRulesTwoDefaults.take i).map (fun r => r.ruleId))) :=
  ⟨rfl, claim_C8_dependencyDiscipline [wNote1] wRulesTwoDefaults true wOut2 rfl⟩

/-- Witness for `claim_C9_extrasColumnCollision` at a concrete two-rule
run. -/
theorem claim_C9_extrasColumnCollision_witness :
    runRules wRulesTwoDefaults ⟨[wNote1], [], [], ExtrasTable.empty, []⟩ [] =
      .ok (wRunPair.1, wRunPair.2) ∧
    wRunPair.2.Pairwise (fun e1 e2 => ∀ c1 c2, e1.extrasCols = some c1 →
      e2.extrasCols = some c2 → ∀ s ∈ c1, s ∉ c2) :=
  ⟨rfl, claim_C9_extrasColumnCollision [wNote1] wRulesTwoDefaults
    wRunPair.1 wRunPair.2 rfl⟩

/-- Witness for `claim_C10_stableCrhInnerJoin` at a note with a positive
timestamp that no prior rule labeled. -/
theorem claim_C10_stableCrhInnerJoin_witness :
    ((10 : Int) ∉ ([] : Labels).map (fun l => l.1)) ∧
    ((10 : Int) ∉ ((NmrDueToMinStableCrhTime.score_notes 30 100 [w10row]
        []).1).map (fun p => p.1) ∧
     (10 : Int) ∉ ((NmrDueToMinStableCrhTime.score_notes 30 100 [w10row]
        []).2).map (fun p => p.1)) :=
  ⟨by decide, claim_C10_stableCrhInnerJoin 30 100 [w10row] [] 10 (by decide)⟩

end CommunityNotes
